import Mathlib

/-!
Verification of the DecypharrSeed reconciliation and dispatch engine
(src/app.py) against its specification.

The Python source is shallowly embedded: pure helpers become Lean
functions, the SQLite-backed `sent` table (the Ledger) becomes an
association list of entries, and the qBittorrent client becomes an
explicit behaviour record (authentication outcome, free-space answer and
per-item submission / ledger-write outcomes), so that both the manual
dispatch route (`enqueue`) and the autonomous route (`autosend_process`)
are deterministic state transformers that can be evaluated and reasoned
about.
-/

namespace DecypharrSeed

/-! ## Python string primitives

Python `str.lower`, `str.upper`, `str.strip` and `str.split` restricted
to the ASCII behaviour actually exercised by the program (infohashes,
host names, categories). -/

/-- ASCII lower-casing of one character, as Python `str.lower` acts on the
characters the program handles. -/
def lcChar (c : Char) : Char :=
  if 65 ≤ c.toNat ∧ c.toNat ≤ 90 then Char.ofNat (c.toNat + 32) else c

/-- ASCII upper-casing of one character, as Python `str.upper` acts on the
characters the program handles. -/
def ucChar (c : Char) : Char :=
  if 97 ≤ c.toNat ∧ c.toNat ≤ 122 then Char.ofNat (c.toNat - 32) else c

/-- Python `s.lower()`. -/
def pyLower (s : String) : String := String.mk (s.data.map lcChar)

/-- Python `s.upper()`. -/
def pyUpper (s : String) : String := String.mk (s.data.map ucChar)

/-- The ASCII whitespace class of Python `str.strip` and of the regex
class `\s` (space, tab, newline, carriage return, form feed, vertical
tab). -/
def isPySpace (c : Char) : Bool :=
  c = ' ' ∨ c = '\t' ∨ c = '\n' ∨ c = '\r' ∨ c.toNat = 11 ∨ c.toNat = 12

/-- Python `s.strip()`: drop leading and trailing whitespace. -/
def pyStrip (s : String) : String :=
  String.mk (((s.data.dropWhile isPySpace).reverse.dropWhile isPySpace).reverse)

/-- Python `s.split(sep)[0]`: the prefix of `s` before the first
occurrence of `sep` (the whole string when `sep` does not occur). -/
def headSplit (sep : Char) (s : String) : String :=
  String.mk (s.data.takeWhile (fun c => c ≠ sep))

/-- Python truthiness-based `or` on strings: the left operand unless it
is empty. -/
def pyOrS (a b : String) : String := if a = "" then b else a

/-- Python truthiness-based `or` on integers: the left operand unless it
is zero. -/
def pyOrI (a b : Int) : Int := if a = 0 then b else a

/-- Code-point comparison used to model Python `sorted` on strings. -/
def charsLe : List Char → List Char → Bool
  | [], _ => true
  | _ :: _, [] => false
  | a :: as, b :: bs => if a = b then charsLe as bs else decide (a.toNat < b.toNat)

/-- Insertion step of the sorting model. -/
def insertSorted (x : String) : List String → List String
  | [] => [x]
  | y :: ys => if charsLe x.data y.data then x :: y :: ys else y :: insertSorted x ys

/-- Sorting model for Python `sorted` over strings. -/
def sortStrings (l : List String) : List String := l.foldr insertSorted []

/-- Model of Python `sorted(set(xs))`. -/
def sortedSet (l : List String) : List String := sortStrings l.dedup

/-! ## Rule table

One row of the `rules` table (`host` is the association-list key):
`category` nullable text (the empty string models NULL/empty, both falsy
in Python), `ratio` nullable real, `seed_days` nullable integer. -/

/-- A row of the `rules` table, keyed by host. -/
structure Rule where
  category : String
  ratioVal : Option ℚ
  seedDays : Option Int
deriving Repr, DecidableEq

/-- The in-memory rule table returned by `get_rules()`: host to row. -/
abbrev Rules := List (String × Rule)

/-- Python `rules.get(h)`. -/
def lookupRule (rules : Rules) (h : String) : Option Rule :=
  List.lookup h rules

/-- Python `rules.get(host, {}).get("category")` collapsed to a string
(absent rule or absent category give the falsy empty string). -/
def catOf (r : Option Rule) : String :=
  match r with
  | some ru => ru.category
  | none => ""

/-- Python `float(rule.get('ratio') or 2.0)`: the rule's ratio unless
missing or zero (falsy), in which case 2. -/
def resolveRatioLimit (r : Option Rule) : ℚ :=
  match r with
  | some ru =>
    match ru.ratioVal with
    | some q => if q = 0 then 2 else q
    | none => 2
  | none => 2

/-- Python `int(rule.get('seed_days') or 14)*24*60`: the rule's seed-day
count (14 when missing or zero) converted to minutes. -/
def resolveSeedMinutes (r : Option Rule) : Int :=
  (match r with
   | some ru =>
     match ru.seedDays with
     | some v => if v = 0 then 14 else v
     | none => 14
   | none => 14) * 24 * 60

/-- The sentinel label used when a magnet declares no tracker. -/
def noTrackerLabel : String := "(sans-tracker)"

/-- The scanning loop inside `label_for_hosts`: the first host whose rule
has a truthy category, paired with that category. -/
def labelScan (rules : Rules) : List String → Option (String × String)
  | [] => none
  | h :: t =>
    match lookupRule rules h with
    | some r => if r.category ≠ "" then some (r.category, h) else labelScan rules t
    | none => labelScan rules t

/-- Embedding of `label_for_hosts(hosts, rules)` from src/app.py: iterate
the hosts in order and return `(category, host)` for the first host whose
rule has a non-empty category; otherwise return the first host twice, or
the no-tracker sentinel twice when the list is empty. -/
def label_for_hosts (hosts : List String) (rules : Rules) : String × String :=
  let primary := hosts.headD noTrackerLabel
  match labelScan rules hosts with
  | some lr => lr
  | none => (primary, primary)

/-! ## The Ledger (the `sent` table)

Rows of the `sent` table keyed by `infohash`. `record_sent` performs
`REPLACE INTO` with the lower-cased hash; `sent_map` lower-cases keys on
read; the delete operations model the scoped resets. -/

/-- A row of the `sent` table. -/
structure SentEntry where
  infohash : String
  clientId : Nat
  ts : Nat
deriving Repr, DecidableEq

/-- Embedding of `record_sent(infohash, client_id)`: `REPLACE INTO`
stores the lower-cased hash, deleting any row with the same primary key
first. -/
def record_sent (l : List SentEntry) (ih : String) (cid : Nat) (ts : Nat) :
    List SentEntry :=
  { infohash := pyLower ih, clientId := cid, ts := ts } ::
    l.filter (fun e => e.infohash ≠ pyLower ih)

/-- The key set of `sent_map()`: every stored hash lower-cased on read. -/
def sent_map_keys (l : List SentEntry) : List String :=
  l.map (fun e => pyLower e.infohash)

/-- Embedding of `delete_sent_all()`: report the row count and empty the
table. -/
def delete_sent_all (l : List SentEntry) : Nat × List SentEntry :=
  (l.length, [])

/-- Embedding of `delete_sent_by_infohashes(hashes)`: nothing happens for
an empty list; otherwise delete the rows whose stored key equals one of
the lower-cased hashes, reporting the deleted-row count. -/
def delete_sent_by_infohashes (hashes : List String) (l : List SentEntry) :
    Nat × List SentEntry :=
  if hashes.isEmpty then (0, l)
  else
    let lowered := hashes.map pyLower
    let kept := l.filter (fun e => ¬ e.infohash ∈ lowered)
    (l.length - kept.length, kept)

/-- The write operations the program ever performs on the `sent` table. -/
inductive LedgerOp where
  | store (ih : String) (cid : Nat) (ts : Nat)
  | wipe
  | removeByHashes (hashes : List String)
deriving Repr

/-- Apply one ledger write. -/
def applyLedgerOp (l : List SentEntry) : LedgerOp → List SentEntry
  | .store ih cid ts => record_sent l ih cid ts
  | .wipe => (delete_sent_all l).2
  | .removeByHashes hs => (delete_sent_by_infohashes hs l).2

/-- Apply a sequence of ledger writes, oldest first. -/
def applyLedgerOps (ops : List LedgerOp) (l : List SentEntry) : List SentEntry :=
  ops.foldl applyLedgerOp l

/-! ## Descriptor data

The recognized fields of one parsed JSON descriptor. Absent string
fields are the empty string (falsy in Python, matching the `or` chains);
numeric fields carry the parsed integers, with the guards of
`extract_size_bytes` deciding which are used. -/

/-- The fields of a parsed descriptor that src/app.py reads. -/
structure DescData where
  info_hash : String
  infoHashCamel : String
  link : String
  magnetLink : String
  nameField : String
  filename : String
  original_filename : String
  magnetName : String
  bytesField : Int
  fileSizes : List Int
  sizeField : Int
deriving Repr, DecidableEq

/-- The empty descriptor record, Python `{}` (used when a re-read of the
descriptor fails inside `enqueue`). -/
def emptyDescData : DescData :=
  { info_hash := "", infoHashCamel := "", link := "", magnetLink := ""
    nameField := "", filename := "", original_filename := "", magnetName := ""
    bytesField := 0, fileSizes := [], sizeField := 0 }

/-- Embedding of `extract_size_bytes(data)`: the `bytes` field when
positive, else the sum of the positive per-file sizes when positive,
else the `size` field when positive, else 0. -/
def extract_size_bytes (d : DescData) : Int :=
  if d.bytesField > 0 then d.bytesField
  else
    let s := (d.fileSizes.map (fun v => if v > 0 then v else 0)).sum
    if s > 0 then s
    else if d.sizeField > 0 then d.sizeField else 0

/-- A hex digit as in the regex class `[a-fA-F0-9]`. -/
def isHexChar (c : Char) : Bool :=
  (48 ≤ c.toNat ∧ c.toNat ≤ 57) ∨ (97 ≤ c.toNat ∧ c.toNat ≤ 102) ∨
    (65 ≤ c.toNat ∧ c.toNat ≤ 70)

/-- An alphanumeric character as in the regex class `[a-zA-Z0-9]`. -/
def isAlnumChar (c : Char) : Bool :=
  (48 ≤ c.toNat ∧ c.toNat ≤ 57) ∨ (97 ≤ c.toNat ∧ c.toNat ≤ 122) ∨
    (65 ≤ c.toNat ∧ c.toNat ≤ 90)

/-- Match the regex `xt=urn:btih:` followed by exactly `n` characters of
class `p` at the head of the list, returning the captured group. -/
def btihAt (p : Char → Bool) (n : Nat) (s : List Char) : Option (List Char) :=
  if ("xt=urn:btih:".data.isPrefixOf s) then
    let rest := s.drop 12
    let capture := rest.take n
    if capture.length = n ∧ capture.all p then some capture else none
  else none

/-- Model of `re.search` for the pattern `xt=urn:btih:` plus `n`
class-`p` characters: try every suffix, leftmost match first. -/
def btihSearch (p : Char → Bool) (n : Nat) : List Char → Option (List Char)
  | [] => none
  | c :: rest =>
    match btihAt p n (c :: rest) with
    | some cap => some cap
    | none => btihSearch p n rest

/-- Embedding of `extract_infohash(data, magnet)`: the explicit
`info_hash`/`infoHash` field lower-cased when truthy, else the 40-hex
capture of `xt=urn:btih:`, else the 32-alphanumeric capture, each
lower-cased; `none` when nothing matches. -/
def extract_infohash (d : DescData) (magnet : String) : Option String :=
  let ih := pyLower (pyOrS d.info_hash d.infoHashCamel)
  if ih ≠ "" then some ih
  else
    match btihSearch isHexChar 40 magnet.data with
    | some h => some (pyLower (String.mk h))
    | none =>
      match btihSearch isAlnumChar 32 magnet.data with
      | some h => some (pyLower (String.mk h))
      | none => none

/-! ## Magnet and tracker parsing

Models of `MAGNET_RE.search`, `urllib.parse.urlsplit`, `parse_qs` and
`unquote`, restricted to the byte-level behaviour the descriptors
exercise. -/

/-- A character allowed after `magnet:` by the regex
`magnet:[^\s"'<>]+`. -/
def isMagnetChar (c : Char) : Bool :=
  ¬ (isPySpace c ∨ c.toNat = 34 ∨ c.toNat = 39 ∨ c = '<' ∨ c = '>')

/-- Attempt the `MAGNET_RE` match at the head of the list: the literal
`magnet:` case-insensitively, then one or more allowed characters. -/
def magnetAt (s : List Char) : Option (List Char) :=
  if (s.take 7).map lcChar = "magnet:".data then
    let body := (s.drop 7).takeWhile isMagnetChar
    if body.isEmpty then none else some (s.take 7 ++ body)
  else none

/-- Model of `MAGNET_RE.search(raw)`: leftmost match of the pattern
`magnet:[^\s"'<>]+` (case-insensitive on the scheme). -/
def magnetSearch : List Char → Option (List Char)
  | [] => none
  | c :: rest =>
    match magnetAt (c :: rest) with
    | some m => some m
    | none => magnetSearch rest

/-- The numeric value of a hex digit (0 for non-hex input). -/
def hexVal (c : Char) : Nat :=
  if 48 ≤ c.toNat ∧ c.toNat ≤ 57 then c.toNat - 48
  else if 97 ≤ c.toNat ∧ c.toNat ≤ 102 then c.toNat - 87
  else if 65 ≤ c.toNat ∧ c.toNat ≤ 70 then c.toNat - 55
  else 0

/-- Model of `urllib.parse.unquote`: decode `%XY` escapes, leaving
everything else untouched. -/
def unquoteChars : List Char → List Char
  | [] => []
  | '%' :: h1 :: h2 :: rest =>
    if isHexChar h1 ∧ isHexChar h2 then
      Char.ofNat (16 * hexVal h1 + hexVal h2) :: unquoteChars rest
    else '%' :: unquoteChars (h1 :: h2 :: rest)
  | c :: rest => c :: unquoteChars rest

/-- Model of `urllib.parse.unquote_plus` (used inside `parse_qs`): `+`
becomes a space, then `%XY` escapes are decoded. -/
def unquotePlusChars (s : List Char) : List Char :=
  unquoteChars (s.map (fun c => if c = '+' then ' ' else c))

/-- Split a character list at every occurrence of `sep` (Python
`str.split(sep)`). -/
def splitOnChar (sep : Char) : List Char → List (List Char)
  | [] => [[]]
  | c :: rest =>
    let r := splitOnChar sep rest
    if c = sep then [] :: r
    else
      match r with
      | [] => [[c]]
      | h :: t => (c :: h) :: t

/-- Split a character list at the first occurrence of `sep` (Python
`str.split(sep, 1)`), or `none` when `sep` does not occur. -/
def splitOnceAt (sep : Char) : List Char → Option (List Char × List Char)
  | [] => none
  | c :: rest =>
    if c = sep then some ([], rest)
    else
      match splitOnceAt sep rest with
      | some nv => some (c :: nv.1, nv.2)
      | none => none

/-- The query component of `urlsplit`: everything after the first `?`,
stopping at a fragment marker. -/
def urlQuery (s : List Char) : List Char :=
  let beforeFrag := s.takeWhile (fun c => c ≠ '#')
  match splitOnceAt '?' beforeFrag with
  | some qv => qv.2
  | none => []

/-- Model of `parse_qs(query).get("tr", [])`: split the query on `&`,
skip empty segments, segments without `=` and empty values, and keep the
`unquote_plus`-decoded values whose decoded name is `tr`, in order. -/
def parseQsTr (q : List Char) : List (List Char) :=
  (splitOnChar '&' q).filterMap (fun seg =>
    if seg.isEmpty then none
    else
      match splitOnceAt '=' seg with
      | none => none
      | some nv =>
        if nv.2.isEmpty then none
        else if unquotePlusChars nv.1 = "tr".data then some (unquotePlusChars nv.2)
        else none)

/-- The `hostname` of a `http(s)://` URL as `urlsplit` computes it on the
tracker URLs the program meets: the authority up to the first `/`, `?`
or `#`, stripped of user info and port, lower-cased. -/
def hostnameOf (t : List Char) : List Char :=
  let afterScheme :=
    if ("https://".data.isPrefixOf t) then t.drop 8 else t.drop 7
  let netloc := afterScheme.takeWhile (fun c => c ≠ '/' ∧ c ≠ '?' ∧ c ≠ '#')
  let afterUser := (netloc.reverse.takeWhile (fun c => c ≠ '@')).reverse
  (afterUser.takeWhile (fun c => c ≠ ':')).map lcChar

/-- Embedding of `parse_trackers_from_magnet(magnet)`: the `tr` query
values of the magnet, `unquote`d once more, kept when they start with
`http://` or `https://`, replaced by their lower-cased hostname when it
is non-empty. -/
def parse_trackers_from_magnet (magnet : String) : List String :=
  (parseQsTr (urlQuery magnet.data)).filterMap (fun tv =>
    let t := unquoteChars tv
    if ("http://".data.isPrefixOf t) ∨ ("https://".data.isPrefixOf t) then
      let host := hostnameOf t
      if host.isEmpty then none else some (String.mk host)
    else none)

/-! ## The catalog scanner (`scan_jsons`)

A descriptor file is modelled by its directory, name, modification time,
parse outcome, parsed fields and raw text; the settings store is reduced
to the two keys the scanner touches (`json_dirs` read, `last_scan_hosts`
written). -/

/-- One on-disk descriptor file as the scanner sees it. -/
structure DescFile where
  dir : String
  fname : String
  mtime : Nat
  parseOk : Bool
  data : DescData
  raw : String
deriving Repr, DecidableEq

/-- The slice of the settings store that `scan_jsons` reads and writes. -/
structure ScanState where
  jsonDirs : Option (List String)
  lastScanHosts : Option (List String)
deriving Repr, DecidableEq

/-- The compiled-in default of `MCC_JSON_DIRS`. -/
def defaultJsonDirs : List String := ["/data/alldebrid"]

/-- Embedding of `get_json_dirs()`: the stored list when it is a
non-empty list, else the default. -/
def get_json_dirs (s : ScanState) : List String :=
  match s.jsonDirs with
  | some (d :: ds) => d :: ds
  | _ => defaultJsonDirs

/-- The synthetic infohash assigned by `scan_jsons` to a descriptor with
no extractable infohash: `f"nohash_{jp.name}"`. -/
def placeholderInfohash (fname : String) : String := "nohash_" ++ fname

/-- A normalized catalog item as `scan_jsons` builds it (the human-format
display strings are omitted). -/
structure ScanItem where
  itemName : String
  sizeB : Int
  ts : Nat
  magnet : String
  infohash : String
  jsonPath : String
  trackerHost : String
  trackerLabel : String
deriving Repr, DecidableEq

/-- Process one descriptor file exactly as the loop body of
`scan_jsons` does: skip on parse failure, resolve the magnet (primary
field, nested field, raw-text regex), skip when none, derive trackers,
label, name, infohash (with placeholder fallback) and size. Returns the
item together with the host list added to `last_hosts_set`. -/
def scanFile (rules : Rules) (f : DescFile) : Option (ScanItem × List String) :=
  if ¬ f.parseOk then none
  else
    let d := f.data
    let m0 := pyOrS d.link d.magnetLink
    let magnet :=
      if m0 ≠ "" ∧ ("magnet:".data.isPrefixOf m0.data) then m0
      else
        match magnetSearch f.raw.data with
        | some m => String.mk m
        | none => ""
    if magnet = "" then none
    else
      let hosts0 := parse_trackers_from_magnet magnet
      let hosts := if hosts0.isEmpty then [noTrackerLabel] else hosts0
      let lr := label_for_hosts hosts rules
      let nm := pyOrS (pyOrS (pyOrS d.nameField d.filename) d.original_filename)
                      d.magnetName
      let nm := if nm = "" then "Sans nom" else nm
      let ih :=
        match extract_infohash d magnet with
        | some v => v
        | none => placeholderInfohash f.fname
      some ({ itemName := nm, sizeB := extract_size_bytes d, ts := f.mtime
              magnet := magnet, infohash := ih
              jsonPath := f.dir ++ "/" ++ f.fname
              trackerHost := lr.2, trackerLabel := lr.1 }, hosts)

/-- Embedding of `scan_jsons()` up to its item list and its settings
write: gather the `*.json` files of each configured directory in order,
build one item per valid file, and store the sorted host set under
`last_scan_hosts`. The ledger/live enrichment and grouping performed
afterwards read state but write nothing. -/
def scan_jsons (fs : List DescFile) (s : ScanState) (rules : Rules) :
    List ScanItem × ScanState :=
  let dirs := get_json_dirs s
  let files := dirs.flatMap (fun d => fs.filter (fun f => f.dir = d))
  let results := files.filterMap (scanFile rules)
  let items := results.map (fun r => r.1)
  let allHosts := results.flatMap (fun r => r.2)
  (items, { s with lastScanHosts := some (sortedSet allHosts) })

/-! ## The dispatch engine

Both dispatch routes talk to qBittorrent through a behaviour record:
whether authentication succeeds per client, the free-space answer per
client (`none` models a failing `sync.maindata()` call), and the
per-item outcomes of `torrents_add` and of the `record_sent` database
write (`none` models no failure injection). The tag and share-limit
calls sit in `try/except: pass` blocks, so their outcomes are
unobservable; the attempted parameters are recorded instead. -/

/-- A row of the `clients` table as the dispatch paths read it. -/
structure ClientRow where
  cid : Nat
  precheck : Bool
deriving Repr, DecidableEq

/-- The behaviour of the remote side and of the persistence layer during
one dispatch call. `addOk`/`writeOk` are indexed by the position of the
item in the processed list. -/
structure Remote where
  authOk : Nat → Bool
  freeSpace : Nat → Option Int
  addOk : Nat → Bool
  writeOk : Nat → Bool

/-- One attempted `torrents_add` submission together with the share-limit
parameters applied to it. -/
structure Submission where
  magnet : String
  category : String
  ratioLimit : ℚ
  seedMinutes : Int
  limitHashes : String
deriving Repr, DecidableEq

/-- One selected entry of the manual dispatch form, after
`packed.split("||",3)`: the magnet, the rule host, the infohash and the
re-read descriptor data of the JSON path (the empty record when the
re-read fails). -/
structure SelItem where
  magnet : String
  trackerHost : String
  infohash : String
  data : DescData
deriving Repr, DecidableEq

/-- The observable outcome of one `enqueue` call. -/
inductive EnqueueOutcome where
  | noSelection
  | clientNotFound
  | clientUnreachable
  | insufficientSpace (needed : Int) (free : Int) (unknown : Nat)
  | completed (added : Nat)
deriving Repr, DecidableEq

/-- The full observable effect of one `enqueue` call. -/
structure EnqueueResult where
  outcome : EnqueueOutcome
  subs : List Submission
  ledger : List SentEntry
deriving Repr, DecidableEq

/-- The `added` count an `enqueue` call reports (zero on every abort). -/
def addedOf (r : EnqueueResult) : Nat :=
  match r.outcome with
  | .completed a => a
  | _ => 0

/-- The space-precheck sum of `enqueue`: positive sizes of all selected
items (`total_needed`). -/
def totalNeeded (sel : List SelItem) : Int :=
  (sel.map (fun it =>
    let sz := extract_size_bytes it.data
    if sz > 0 then sz else 0)).sum

/-- The count of selected items with unknown (non-positive) size. -/
def unknownCount (sel : List SelItem) : Nat :=
  (sel.filter (fun it => ¬ extract_size_bytes it.data > 0)).length

/-- The per-item loop of `enqueue`: skip items whose lower-cased hash is
in the `already` snapshot; otherwise attempt `torrents_add` with the
rule category (else the first dot-segment of the host) and the resolved
share limits; on success run `record_sent` and count the item, provided
the ledger write does not fail. Returns (added, attempts, ledger). -/
def enqueueLoop (rules : Rules) (cid : Nat) (now : Nat) (already : List String)
    (remote : Remote) :
    Nat → List SelItem → List SentEntry → Nat × List Submission × List SentEntry
  | _, [], ledger => (0, [], ledger)
  | idx, it :: rest, ledger =>
    if pyLower it.infohash ∈ already then
      enqueueLoop rules cid now already remote (idx + 1) rest ledger
    else
      let rule := lookupRule rules it.trackerHost
      let category := pyStrip (pyOrS (catOf rule) (headSplit '.' it.trackerHost))
      let sub : Submission :=
        { magnet := it.magnet, category := category
          ratioLimit := resolveRatioLimit rule
          seedMinutes := resolveSeedMinutes rule
          limitHashes := pyUpper it.infohash }
      if remote.addOk idx then
        if remote.writeOk idx then
          let r := enqueueLoop rules cid now already remote (idx + 1) rest
                     (record_sent ledger it.infohash cid now)
          (r.1 + 1, sub :: r.2.1, r.2.2)
        else
          let r := enqueueLoop rules cid now already remote (idx + 1) rest ledger
          (r.1, sub :: r.2.1, r.2.2)
      else
        let r := enqueueLoop rules cid now already remote (idx + 1) rest ledger
        (r.1, sub :: r.2.1, r.2.2)

/-- Embedding of the `enqueue` route of src/app.py: guard the selection,
the client lookup and the authentication handshake; when the client has
the precheck enabled and the free-space query answers, abort the whole
call if the positive sizes of the selection exceed free space; otherwise
run the per-item loop against the `sent_map` snapshot. -/
def enqueue (sel : List SelItem) (client : Option ClientRow) (remote : Remote)
    (rules : Rules) (ledger : List SentEntry) (now : Nat) : EnqueueResult :=
  if sel.isEmpty then ⟨.noSelection, [], ledger⟩
  else
    match client with
    | none => ⟨.clientNotFound, [], ledger⟩
    | some cr =>
      if ¬ remote.authOk cr.cid then ⟨.clientUnreachable, [], ledger⟩
      else
        let freeB := if cr.precheck then remote.freeSpace cr.cid else none
        let already := sent_map_keys ledger
        let needed := totalNeeded sel
        let unknown := unknownCount sel
        let proceed :=
          let r := enqueueLoop rules cr.cid now already remote 0 sel ledger
          EnqueueResult.mk (.completed r.1) r.2.1 r.2.2
        match freeB with
        | some f => if needed > f then ⟨.insufficientSpace needed f unknown, [], ledger⟩
                    else proceed
        | none => proceed

/-- The candidate-items space sum as §4.5 of the spec words it: positive
sizes of the selected items whose infohash is NOT already in the Ledger.
Stated from the spec for comparison with `totalNeeded`; `enqueue` does
not use it. -/
def specCandidateSum (sel : List SelItem) (ledger : List SentEntry) : Int :=
  ((sel.filter (fun it => ¬ pyLower it.infohash ∈ sent_map_keys ledger)).map
    (fun it =>
      let sz := extract_size_bytes it.data
      if sz > 0 then sz else 0)).sum

/-! ## The autonomous dispatch route (`autosend_process`) -/

/-- The persisted autosend policy (`autosend_cfg`). -/
structure Policy where
  globalEnabled : Bool
  globalClient : Option Nat
  byLabel : List (String × Nat)
deriving Repr, DecidableEq

/-- Python truthiness-based `or` on optional client ids
(`map_by_label.get(lbl) or global_client`): a stored zero is falsy. -/
def pyOrCid (a b : Option Nat) : Option Nat :=
  match a with
  | some n => if n = 0 then b else some n
  | none => b

/-- Embedding of the `client_for(it)` closure of `autosend_process`:
label-specific client id, else the global client id when autosend is
globally enabled, resolved against the clients table; `None` when the id
is falsy or unknown. -/
def clientFor (policy : Policy) (clients : List (Nat × ClientRow))
    (lbl : String) : Option ClientRow :=
  let globalCid := if policy.globalEnabled then policy.globalClient else none
  match pyOrCid (List.lookup lbl policy.byLabel) globalCid with
  | some n => if n = 0 then none else List.lookup n clients
  | none => none

/-- The observable effect of one `autosend_process` call. -/
structure AutosendResult where
  added : Nat
  subs : List Submission
  ledger : List SentEntry
deriving Repr, DecidableEq

/-- The per-item loop of `autosend_process`: skip items whose lower-cased
hash is in the `sent` snapshot, items with no resolved client, items
whose client fails authentication, and — when that client has the
precheck enabled and the free-space query answers — items larger than
the free space; otherwise attempt `torrents_add` with the rule category
(else the label, else the first dot-segment of the host) and the
resolved share limits, recording and counting on success exactly as the
manual route does. -/
def autosendLoop (policy : Policy) (clients : List (Nat × ClientRow))
    (rules : Rules) (remote : Remote) (now : Nat) (sent : List String) :
    Nat → List ScanItem → List SentEntry → AutosendResult
  | _, [], ledger => ⟨0, [], ledger⟩
  | idx, it :: rest, ledger =>
    let next := fun (l : List SentEntry) =>
      autosendLoop policy clients rules remote now sent (idx + 1) rest l
    let ih := pyLower it.infohash
    if ih ∈ sent then next ledger
    else
      match clientFor policy clients it.trackerLabel with
      | none => next ledger
      | some cr =>
        if ¬ remote.authOk cr.cid then next ledger
        else
          let spaceSkip :=
            cr.precheck &&
              match remote.freeSpace cr.cid with
              | some f => decide (pyOrI it.sizeB 0 > f)
              | none => false
          if spaceSkip then next ledger
          else
            let rule := lookupRule rules it.trackerHost
            let category := pyStrip (pyOrS (catOf rule)
              (pyOrS it.trackerLabel (headSplit '.' it.trackerHost)))
            let sub : Submission :=
              { magnet := it.magnet, category := category
                ratioLimit := resolveRatioLimit rule
                seedMinutes := resolveSeedMinutes rule
                limitHashes := pyUpper it.infohash }
            if remote.addOk idx then
              if remote.writeOk idx then
                let r := next (record_sent ledger ih cr.cid now)
                ⟨r.added + 1, sub :: r.subs, r.ledger⟩
              else
                let r := next ledger
                ⟨r.added, sub :: r.subs, r.ledger⟩
            else
              let r := next ledger
              ⟨r.added, sub :: r.subs, r.ledger⟩

/-- Embedding of `autosend_process(items)`: an empty item list does
nothing; otherwise run the per-item loop against the `sent_map`
snapshot. -/
def autosend_process (items : List ScanItem) (policy : Policy)
    (clients : List (Nat × ClientRow)) (rules : Rules) (remote : Remote)
    (ledger : List SentEntry) (now : Nat) : AutosendResult :=
  if items.isEmpty then ⟨0, [], ledger⟩
  else autosendLoop policy clients rules remote now (sent_map_keys ledger) 0 items ledger

/-- The shape of a real infohash as §3 of the spec describes it (and as
the capture groups of `extract_infohash` produce it): 40 hex characters
or 32 alphanumeric (base32) characters. -/
def realHashShape (s : String) : Bool :=
  (s.data.length = 40 && s.data.all isHexChar) ||
    (s.data.length = 32 && s.data.all isAlnumChar)

/-- The ledger-independent skip conditions of the autosend loop for one
item: no resolvable client, failed authentication, or a failing per-item
space precheck. -/
def autosendSkipOther (policy : Policy) (clients : List (Nat × ClientRow))
    (remote : Remote) (it : ScanItem) : Bool :=
  match clientFor policy clients it.trackerLabel with
  | none => true
  | some cr =>
    (¬ remote.authOk cr.cid) ||
      (cr.precheck &&
        match remote.freeSpace cr.cid with
        | some f => decide (pyOrI it.sizeB 0 > f)
        | none => false)

/-! ## Basic lemmas about the string primitives -/

theorem toNat_ofNat_valid (n : Nat) (h : n.isValidChar) :
    (Char.ofNat n).toNat = n := by
  simp [Char.ofNat, dif_pos h, Char.ofNatAux, Char.toNat, UInt32.toNat]

theorem lcChar_idem (c : Char) : lcChar (lcChar c) = lcChar c := by
  unfold lcChar
  by_cases h : 65 ≤ c.toNat ∧ c.toNat ≤ 90
  · rw [if_pos h]
    have hv : (c.toNat + 32).isValidChar := Or.inl (by omega)
    have ht : (Char.ofNat (c.toNat + 32)).toNat = c.toNat + 32 :=
      toNat_ofNat_valid _ hv
    rw [if_neg]
    omega
  · rw [if_neg h, if_neg h]

theorem mapLc_idem (l : List Char) :
    (l.map lcChar).map lcChar = l.map lcChar := by
  induction l with
  | nil => rfl
  | cons c t ihp => simp [ihp, lcChar_idem]

theorem pyLower_idem (s : String) : pyLower (pyLower s) = pyLower s := by
  unfold pyLower
  congr 1
  exact mapLc_idem s.data

/-! ## Lemmas about the Ledger operations -/

theorem sent_map_keys_lowered (l : List SentEntry) (k : String)
    (hk : k ∈ sent_map_keys l) : pyLower k = k := by
  simp [sent_map_keys] at hk
  obtain ⟨e, _, he⟩ := hk
  rw [← he, pyLower_idem]

theorem mem_sent_map_keys_record (l : List SentEntry) (ih : String)
    (cid ts : Nat) (k : String) :
    k ∈ sent_map_keys (record_sent l ih cid ts) ↔
      k = pyLower ih ∨ k ∈ sent_map_keys l := by
  simp only [sent_map_keys, record_sent, List.map_cons, List.mem_cons]
  constructor
  · rintro (hk | hk)
    · left; rw [hk, pyLower_idem]
    · right
      simp only [List.mem_map] at hk ⊢
      obtain ⟨e, he, hk⟩ := hk
      exact ⟨e, (List.mem_filter.mp he).1, hk⟩
  · rintro (hk | hk)
    · left; rw [hk, pyLower_idem]
    · simp only [List.mem_map] at hk
      obtain ⟨e, he, hk⟩ := hk
      by_cases hsame : e.infohash = pyLower ih
      · left; rw [← hk, hsame, pyLower_idem]
      · right
        simp only [List.mem_map]
        exact ⟨e, List.mem_filter.mpr ⟨he, by simpa using hsame⟩, hk⟩

theorem record_sent_fresh (l : List SentEntry) (ih : String) (cid ts : Nat)
    (hf : ¬ pyLower ih ∈ sent_map_keys l) :
    record_sent l ih cid ts =
      { infohash := pyLower ih, clientId := cid, ts := ts } :: l := by
  unfold record_sent
  congr 1
  apply List.filter_eq_self.mpr
  intro e he
  simp only [decide_eq_true_eq]
  intro hsame
  apply hf
  simp only [sent_map_keys, List.mem_map]
  exact ⟨e, he, by rw [hsame, pyLower_idem]⟩

/-- Every element of a list vanishes when filtered by non-membership in a
superset of the list. -/
theorem filter_not_mem_self (L S : List String) (h : ∀ k ∈ L, k ∈ S) :
    L.filter (fun k => decide (¬ k ∈ S)) = [] := by
  induction L with
  | nil => rfl
  | cons a t ihp =>
    have ha : a ∈ S := h a (List.mem_cons_self a t)
    have h2 := ihp (fun k hk => h k (List.mem_cons_of_mem a hk))
    simp [List.filter_cons, ha, h2]
    exact fun k hk => h k (List.mem_cons_of_mem a hk)

theorem string_ext {s t : String} (h : s.data = t.data) : s = t := by
  cases s; cases t; exact congrArg String.mk h

theorem map_pyLower_fixed (hashes : List String)
    (hlc : ∀ h ∈ hashes, pyLower h = h) : hashes.map pyLower = hashes := by
  induction hashes with
  | nil => rfl
  | cons a t ihp =>
    have ha := hlc a (List.mem_cons_self a t)
    have ht := ihp (fun k hk => hlc k (List.mem_cons_of_mem a hk))
    simp [ha, ht]

/-! ## C6: first-match label resolution -/

theorem labelScan_eq_find (rules : Rules) (hosts : List String) :
    labelScan rules hosts =
      (hosts.find? (fun x => decide (catOf (lookupRule rules x) ≠ ""))).map
        (fun x => (catOf (lookupRule rules x), x)) := by
  induction hosts with
  | nil => rfl
  | cons h t ihp =>
    rcases hr : lookupRule rules h with _ | r
    · simp [labelScan, hr, List.find?, catOf, ihp]
    · by_cases hc : r.category = ""
      · simp [labelScan, hr, hc, List.find?, catOf, ihp]
      · simp [labelScan, hr, hc, List.find?, catOf]

/-- C6. `label_for_hosts` iterates the hosts in magnet-declared order:
when some host has a rule with a non-empty label, the first such host
wins and the result pairs its rule label with that host (even when a
later host also has a ruled label, which is what first-match via
`List.find?` expresses); when no host has a ruled label, the result is
the first host twice; the empty host list yields the no-tracker sentinel
twice. -/
theorem c6_label_resolution (hosts : List String) (rules : Rules) :
    (∀ h, hosts.find? (fun x => decide (catOf (lookupRule rules x) ≠ "")) = some h →
      label_for_hosts hosts rules = (catOf (lookupRule rules h), h)) ∧
    (hosts.find? (fun x => decide (catOf (lookupRule rules x) ≠ "")) = none →
      ∀ h0 t, hosts = h0 :: t → label_for_hosts hosts rules = (h0, h0)) ∧
    (hosts = [] →
      label_for_hosts hosts rules = (noTrackerLabel, noTrackerLabel)) := by
  refine ⟨fun h hf => ?_, fun hf h0 t hht => ?_, fun hh => ?_⟩
  · unfold label_for_hosts
    rw [labelScan_eq_find, hf]
    rfl
  · unfold label_for_hosts
    rw [labelScan_eq_find, hf, hht]
    rfl
  · subst hh
    rfl

/-- Witness for C6 at the spec's own example: only the second host has a
ruled label, and the result pairs that label with the second host. -/
theorem c6_label_resolution_witness :
    label_for_hosts ["a.example.com", "b.example.com"]
      [("b.example.com", ⟨"label_b", none, none⟩)] =
      ("label_b", "b.example.com") := by
  have h := (c6_label_resolution ["a.example.com", "b.example.com"]
    [("b.example.com", ⟨"label_b", none, none⟩)]).1 "b.example.com" (by decide)
  exact h.trans (by decide)

/-! ## C7: authentication failure aborts the whole call -/

/-- C7. When the handshake with the target client fails, `enqueue`
aborts before processing any item: the outcome is the unreachable-client
error, no magnet is submitted, the Ledger is unchanged and the reported
added count is zero. -/
theorem c7_auth_failure_aborts (sel : List SelItem) (cr : ClientRow)
    (remote : Remote) (rules : Rules) (ledger : List SentEntry) (now : Nat)
    (hne : sel ≠ []) (hauth : remote.authOk cr.cid = false) :
    enqueue sel (some cr) remote rules ledger now =
      ⟨.clientUnreachable, [], ledger⟩ ∧
    addedOf (enqueue sel (some cr) remote rules ledger now) = 0 := by
  have hempty : sel.isEmpty = false := by
    cases sel
    · exact absurd rfl hne
    · rfl
  have h1 : enqueue sel (some cr) remote rules ledger now =
      ⟨.clientUnreachable, [], ledger⟩ := by
    simp [enqueue, hempty, hauth]
  exact ⟨h1, by rw [h1]; rfl⟩

/-- Witness for C7 at a concrete input. -/
theorem c7_auth_failure_aborts_witness :
    enqueue [⟨"magnet:?a", "t.example.com", "aa", emptyDescData⟩]
      (some ⟨1, true⟩)
      ⟨fun _ => false, fun _ => some 100, fun _ => true, fun _ => true⟩
      [] [⟨"bb", 2, 3⟩] 7 =
      ⟨.clientUnreachable, [], [⟨"bb", 2, 3⟩]⟩ :=
  (c7_auth_failure_aborts _ _ _ _ _ _ (by decide) (by decide)).1

/-! ## C8: reset by scope -/

/-- C8. Deleting the Ledger by the full-table scope leaves zero entries;
deleting by an explicit set of (already lower-cased) infohashes removes
exactly the entries whose keys are in that set, every surviving entry
kept whole (same infohash, client id and timestamp). -/
theorem c8_reset_scopes (l : List SentEntry) (hashes : List String)
    (hlc : ∀ h ∈ hashes, pyLower h = h) :
    (delete_sent_all l).2 = [] ∧
    (delete_sent_all l).2.length = 0 ∧
    (∀ e : SentEntry, e ∈ (delete_sent_by_infohashes hashes l).2 ↔
      e ∈ l ∧ ¬ e.infohash ∈ hashes) := by
  refine ⟨rfl, rfl, fun e => ?_⟩
  by_cases hh : hashes.isEmpty
  · rw [List.isEmpty_iff] at hh
    subst hh
    simp [delete_sent_by_infohashes]
  · have hmap : hashes.map pyLower = hashes := map_pyLower_fixed hashes hlc
    simp [delete_sent_by_infohashes, hh, hmap, List.mem_filter]

/-- Witness for C8 at a concrete ledger: deleting the set of one hash
keeps exactly the other entry unchanged. -/
theorem c8_reset_scopes_witness :
    (delete_sent_all [⟨"aa", 1, 5⟩, ⟨"bb", 2, 6⟩]).2 = [] ∧
    ((⟨"bb", 2, 6⟩ : SentEntry) ∈
        (delete_sent_by_infohashes ["aa"] [⟨"aa", 1, 5⟩, ⟨"bb", 2, 6⟩]).2 ↔
      (⟨"bb", 2, 6⟩ : SentEntry) ∈
          ([⟨"aa", 1, 5⟩, ⟨"bb", 2, 6⟩] : List SentEntry) ∧
        ¬ "bb" ∈ ["aa"]) := by
  have h := c8_reset_scopes [⟨"aa", 1, 5⟩, ⟨"bb", 2, 6⟩] ["aa"] (by decide)
  exact ⟨h.1, h.2.2 ⟨"bb", 2, 6⟩⟩

/-! ## C9: the scan is not a pure read, but it is deterministic -/

/-- Counterexample to C9 as stated: even over an empty descriptor set,
`scan_jsons` writes the `last_scan_hosts` settings key (line 1652 of
src/app.py), so the scan is not free of writes to persisted state. -/
theorem c9_scan_purity_counterexample :
    (scan_jsons [] ⟨some ["a"], none⟩ []).2 = ⟨some ["a"], some []⟩ ∧
    ¬ (scan_jsons [] ⟨some ["a"], none⟩ []).2 = ⟨some ["a"], none⟩ := by
  constructor
  · rfl
  · decide

/-- C9 as amended: the scan's only write to persisted state is the
`last_scan_hosts` settings key, which the scan itself never reads; the
configured directory list is untouched, and scanning twice with no
change to the descriptor files or the rules yields the identical item
list and a fixed-point state. -/
theorem c9_scan_deterministic (fs : List DescFile) (s : ScanState)
    (rules : Rules) :
    (scan_jsons fs (scan_jsons fs s rules).2 rules).1 =
        (scan_jsons fs s rules).1 ∧
    (scan_jsons fs (scan_jsons fs s rules).2 rules).2 =
        (scan_jsons fs s rules).2 ∧
    (scan_jsons fs s rules).2.jsonDirs = s.jsonDirs := by
  cases s
  exact ⟨rfl, rfl, rfl⟩

/-! ## C5: the synthetic placeholder infohash -/

/-- Counterexample to C5 as stated: two descriptor files named `x.json`
in two different scanned directories, both without an extractable
infohash, receive the same placeholder `nohash_x.json` although they are
distinct files (distinct source paths) of the scanned directory set. -/
theorem c5_placeholder_counterexample :
    ((scan_jsons
        [⟨"a", "x.json", 3, true,
            { emptyDescData with link := "magnet:?dn=x" }, ""⟩,
         ⟨"b", "x.json", 4, true,
            { emptyDescData with link := "magnet:?dn=x" }, ""⟩]
        ⟨some ["a", "b"], none⟩ []).1.map (fun it => it.infohash) =
      ["nohash_x.json", "nohash_x.json"]) ∧
    ((scan_jsons
        [⟨"a", "x.json", 3, true,
            { emptyDescData with link := "magnet:?dn=x" }, ""⟩,
         ⟨"b", "x.json", 4, true,
            { emptyDescData with link := "magnet:?dn=x" }, ""⟩]
        ⟨some ["a", "b"], none⟩ []).1.map (fun it => it.jsonPath) =
      ["a/x.json", "b/x.json"]) := by
  constructor
  · rfl
  · rfl

/-- C5 as amended: the placeholder is derived from the descriptor's file
name (the final path component), it never has the shape of a real 32- or
40-character infohash, and it is injective in the file name — so
placeholders of distinct files in the same directory never collide,
while equally named files in different scanned directories share one. -/
theorem c5_placeholder_shape (fn fn2 : String) :
    realHashShape (placeholderInfohash fn) = false ∧
    (placeholderInfohash fn = placeholderInfohash fn2 → fn = fn2) := by
  constructor
  · have hmem : '_' ∈ (placeholderInfohash fn).data := by
      show '_' ∈ ("nohash_" ++ fn).data
      rw [String.data_append]
      exact List.mem_append_left _ (by decide)
    rw [Bool.eq_false_iff]
    intro hsh
    simp only [realHashShape, Bool.or_eq_true, Bool.and_eq_true,
      List.all_eq_true, decide_eq_true_eq] at hsh
    rcases hsh with ⟨_, hall⟩ | ⟨_, hall⟩
    · have h1 := hall '_' hmem
      exact absurd h1 (by decide)
    · have h1 := hall '_' hmem
      exact absurd h1 (by decide)
  · intro h
    have hd := congrArg String.data h
    simp only [placeholderInfohash, String.data_append] at hd
    exact string_ext (List.append_cancel_left hd)

/-- Witness for C5 as amended, at the placeholder produced in the
counterexample scan. -/
theorem c5_placeholder_shape_witness :
    realHashShape (placeholderInfohash "x.json") = false ∧
    (placeholderInfohash "x.json" = placeholderInfohash "x.json" →
      ("x.json" : String) = "x.json") :=
  c5_placeholder_shape "x.json" "x.json"

/-! ## C3: the space precheck -/

/-- Counterexample to C3 as stated: with free space 100, an
already-ledgered selected item of 60 bytes and a candidate item of 50
bytes, the spec's candidate sum is 50 and does not exceed free space, so
the claim predicts the call proceeds; `enqueue`, however, sums over ALL
selected items (110 bytes), aborts with the insufficient-space outcome
and sends nothing. -/
theorem c3_precheck_counterexample :
    specCandidateSum
        [⟨"magnet:?a", "t.example.com", "aa",
            { emptyDescData with bytesField := 60 }⟩,
         ⟨"magnet:?b", "t.example.com", "bb",
            { emptyDescData with bytesField := 50 }⟩]
        [⟨"aa", 1, 5⟩] = 50 ∧
    ((50 : Int) ≤ 100) ∧
    enqueue
        [⟨"magnet:?a", "t.example.com", "aa",
            { emptyDescData with bytesField := 60 }⟩,
         ⟨"magnet:?b", "t.example.com", "bb",
            { emptyDescData with bytesField := 50 }⟩]
        (some ⟨1, true⟩)
        ⟨fun _ => true, fun _ => some 100, fun _ => true, fun _ => true⟩
        [] [⟨"aa", 1, 5⟩] 7 =
      ⟨.insufficientSpace 110 100 0, [], [⟨"aa", 1, 5⟩]⟩ :=
  ⟨rfl, by decide, rfl⟩

/-- C3 as amended: with the precheck enabled and an answering free-space
query, `enqueue` sums the positive sizes of ALL selected items (whether
or not already in the Ledger); a sum strictly exceeding free space
aborts the whole call with the insufficient-space outcome, nothing sent
and the Ledger unchanged, while a sum less than or equal to free space
(equality included) proceeds to the submission loop. -/
theorem c3_precheck_behavior (sel : List SelItem) (cr : ClientRow)
    (remote : Remote) (rules : Rules) (ledger : List SentEntry) (now : Nat)
    (f : Int) (hne : sel ≠ []) (hauth : remote.authOk cr.cid = true)
    (hpre : cr.precheck = true) (hfree : remote.freeSpace cr.cid = some f) :
    (totalNeeded sel > f →
      enqueue sel (some cr) remote rules ledger now =
        ⟨.insufficientSpace (totalNeeded sel) f (unknownCount sel),
         [], ledger⟩) ∧
    (totalNeeded sel ≤ f →
      enqueue sel (some cr) remote rules ledger now =
        ⟨.completed (enqueueLoop rules cr.cid now (sent_map_keys ledger)
            remote 0 sel ledger).1,
         (enqueueLoop rules cr.cid now (sent_map_keys ledger)
            remote 0 sel ledger).2.1,
         (enqueueLoop rules cr.cid now (sent_map_keys ledger)
            remote 0 sel ledger).2.2⟩) := by
  have hempty : sel.isEmpty = false := by
    cases sel
    · exact absurd rfl hne
    · rfl
  constructor
  · intro hgt
    simp [enqueue, hempty, hauth, hpre, hfree, hgt]
  · intro hle
    simp [enqueue, hempty, hauth, hpre, hfree, not_lt.mpr hle]

/-- Witness for C3 as amended: a selection summing exactly to the free
space proceeds and submits. -/
theorem c3_precheck_behavior_witness :
    enqueue
        [⟨"magnet:?a", "t.example.com", "aa",
            { emptyDescData with bytesField := 100 }⟩]
        (some ⟨1, true⟩)
        ⟨fun _ => true, fun _ => some 100, fun _ => true, fun _ => true⟩
        [] [] 7 =
      ⟨.completed 1,
       [⟨"magnet:?a", "t", 2, 20160, "AA"⟩],
       [⟨"aa", 1, 7⟩]⟩ := by
  have h := (c3_precheck_behavior
    [⟨"magnet:?a", "t.example.com", "aa",
        { emptyDescData with bytesField := 100 }⟩]
    ⟨1, true⟩
    ⟨fun _ => true, fun _ => some 100, fun _ => true, fun _ => true⟩
    [] [] 7 100 (by decide) rfl rfl rfl).2 (by decide)
  exact h.trans (by decide)

/-! ## C2: the added count -/

/-- Counterexample to C2 as stated: a selection holding two catalog
entries that share one infohash (in different letter cases) and an empty
Ledger. Both entries pass the snapshot check and are submitted, so the
call reports `added = 2`, yet only one distinct infohash key is newly
present in the Ledger. -/
theorem c2_added_counterexample :
    addedOf (enqueue
        [⟨"magnet:?a", "t.example.com", "aa", emptyDescData⟩,
         ⟨"magnet:?b", "t.example.com", "AA", emptyDescData⟩]
        (some ⟨1, false⟩)
        ⟨fun _ => true, fun _ => some 1000, fun _ => true, fun _ => true⟩
        [] [] 7) = 2 ∧
    ((sent_map_keys (enqueue
        [⟨"magnet:?a", "t.example.com", "aa", emptyDescData⟩,
         ⟨"magnet:?b", "t.example.com", "AA", emptyDescData⟩]
        (some ⟨1, false⟩)
        ⟨fun _ => true, fun _ => some 1000, fun _ => true, fun _ => true⟩
        [] [] 7).ledger).filter
      (fun k => decide (¬ k ∈ sent_map_keys ([] : List SentEntry)))).length
      = 1 :=
  ⟨rfl, rfl⟩

/-! ## C4: the two dispatch routes are not equivalent -/

/-- Counterexample to C4 as stated, in two scenarios over the same
catalog items, rules (none), ledger (empty) and remote behaviour. With
the precheck enabled and free space 100 against two 60-byte items, the
manual route aborts the whole call with the insufficient-space outcome
and submits nothing, while the autosend route checks each item
individually, submits both and adds 2. With the precheck disabled, the
manual route resolves the missing rule category to the first dot-segment
of the host (`t`), while the autosend route falls back to the tracker
label (`t.example.com`): the submitted categories differ. -/
theorem c4_paths_counterexample :
    enqueue
        [⟨"magnet:?a", "t.example.com", "aa",
            { emptyDescData with bytesField := 60 }⟩,
         ⟨"magnet:?b", "t.example.com", "bb",
            { emptyDescData with bytesField := 60 }⟩]
        (some ⟨1, true⟩)
        ⟨fun _ => true, fun _ => some 100, fun _ => true, fun _ => true⟩
        [] [] 7 = ⟨.insufficientSpace 120 100 0, [], []⟩ ∧
    (autosend_process
        [⟨"n1", 60, 1, "magnet:?a", "aa", "p1",
            "t.example.com", "t.example.com"⟩,
         ⟨"n2", 60, 2, "magnet:?b", "bb", "p2",
            "t.example.com", "t.example.com"⟩]
        ⟨true, some 1, []⟩ [(1, ⟨1, true⟩)] []
        ⟨fun _ => true, fun _ => some 100, fun _ => true, fun _ => true⟩
        [] 7).added = 2 ∧
    (enqueue [⟨"magnet:?a", "t.example.com", "aa", emptyDescData⟩]
        (some ⟨1, false⟩)
        ⟨fun _ => true, fun _ => some 100, fun _ => true, fun _ => true⟩
        [] [] 7).subs = [⟨"magnet:?a", "t", 2, 20160, "AA"⟩] ∧
    (autosend_process
        [⟨"n1", 60, 1, "magnet:?a", "aa", "p1",
            "t.example.com", "t.example.com"⟩]
        ⟨true, some 1, []⟩ [(1, ⟨1, false⟩)] []
        ⟨fun _ => true, fun _ => some 100, fun _ => true, fun _ => true⟩
        [] 7).subs = [⟨"magnet:?a", "t.example.com", 2, 20160, "AA"⟩] :=
  ⟨rfl, rfl, rfl, rfl⟩

theorem record_sent_pyLower (l : List SentEntry) (ih : String) (cid ts : Nat) :
    record_sent l (pyLower ih) cid ts = record_sent l ih cid ts := by
  simp [record_sent, pyLower_idem]

/-! ## Invariants of the manual submission loop -/

theorem enqueueLoop_subs_origin (rules : Rules) (cid now : Nat)
    (already : List String) (remote : Remote) (rest : List SelItem) :
    ∀ (idx : Nat) (ledgerCur : List SentEntry),
      ∀ s ∈ (enqueueLoop rules cid now already remote idx rest ledgerCur).2.1,
        ∃ it ∈ rest, s.magnet = it.magnet ∧ ¬ pyLower it.infohash ∈ already := by
  induction rest with
  | nil =>
    intro idx ledgerCur s hs
    simp [enqueueLoop] at hs
  | cons it t ihp =>
    intro idx ledgerCur s hs
    simp only [enqueueLoop] at hs
    by_cases hmem : pyLower it.infohash ∈ already
    · rw [if_pos hmem] at hs
      obtain ⟨it2, h1, h2⟩ := ihp _ _ s hs
      exact ⟨it2, List.mem_cons_of_mem _ h1, h2⟩
    · rw [if_neg hmem] at hs
      have step : ∀ l2, s ∈ (enqueueLoop rules cid now already remote
          (idx + 1) t l2).2.1 →
          ∃ it2 ∈ it :: t, s.magnet = it2.magnet ∧
            ¬ pyLower it2.infohash ∈ already := by
        intro l2 hs2
        obtain ⟨it2, h1, h2⟩ := ihp _ _ s hs2
        exact ⟨it2, List.mem_cons_of_mem _ h1, h2⟩
      cases ha : remote.addOk idx with
      | false =>
        simp only [ha, Bool.false_eq_true, if_false] at hs
        rcases List.mem_cons.mp hs with hsub | hs2
        · exact ⟨it, List.mem_cons_self _ _, by rw [hsub], hmem⟩
        · exact step _ hs2
      | true =>
        simp only [ha, if_true] at hs
        cases hw : remote.writeOk idx with
        | false =>
          simp only [hw, Bool.false_eq_true, if_false] at hs
          rcases List.mem_cons.mp hs with hsub | hs2
          · exact ⟨it, List.mem_cons_self _ _, by rw [hsub], hmem⟩
          · exact step _ hs2
        | true =>
          simp only [hw, if_true] at hs
          rcases List.mem_cons.mp hs with hsub | hs2
          · exact ⟨it, List.mem_cons_self _ _, by rw [hsub], hmem⟩
          · exact step _ hs2

theorem enqueueLoop_all_skipped (rules : Rules) (cid now : Nat)
    (already : List String) (remote : Remote) (rest : List SelItem) :
    ∀ (idx : Nat) (ledgerCur : List SentEntry),
      (∀ it ∈ rest, pyLower it.infohash ∈ already) →
      enqueueLoop rules cid now already remote idx rest ledgerCur =
        (0, [], ledgerCur) := by
  induction rest with
  | nil => intro idx ledgerCur _; rfl
  | cons it t ihp =>
    intro idx ledgerCur hall
    have hmem : pyLower it.infohash ∈ already :=
      hall it (List.mem_cons_self _ _)
    simp only [enqueueLoop, if_pos hmem]
    exact ihp _ _ (fun x hx => hall x (List.mem_cons_of_mem _ hx))

theorem enqueueLoop_covers (rules : Rules) (cid now : Nat)
    (already : List String) (remote : Remote)
    (hadd : ∀ i, remote.addOk i = true)
    (hwrite : ∀ i, remote.writeOk i = true) (rest : List SelItem) :
    ∀ (idx : Nat) (ledgerCur : List SentEntry),
      (∀ k ∈ sent_map_keys ledgerCur,
        k ∈ sent_map_keys
          (enqueueLoop rules cid now already remote idx rest ledgerCur).2.2) ∧
      (∀ it ∈ rest, pyLower it.infohash ∈ already →
        pyLower it.infohash ∈ sent_map_keys ledgerCur →
        pyLower it.infohash ∈ sent_map_keys
          (enqueueLoop rules cid now already remote idx rest ledgerCur).2.2) ∧
      (∀ it ∈ rest, ¬ pyLower it.infohash ∈ already →
        pyLower it.infohash ∈ sent_map_keys
          (enqueueLoop rules cid now already remote idx rest ledgerCur).2.2) := by
  induction rest with
  | nil =>
    intro idx ledgerCur
    refine ⟨fun k hk => ?_, fun it hit => absurd hit (List.not_mem_nil it),
      fun it hit => absurd hit (List.not_mem_nil it)⟩
    simpa [enqueueLoop] using hk
  | cons it t ihp =>
    intro idx ledgerCur
    by_cases hmem : pyLower it.infohash ∈ already
    · have hrec := ihp (idx + 1) ledgerCur
      have heq : enqueueLoop rules cid now already remote idx (it :: t) ledgerCur =
          enqueueLoop rules cid now already remote (idx + 1) t ledgerCur := by
        simp only [enqueueLoop, if_pos hmem]
      rw [heq]
      refine ⟨hrec.1, fun x hx hxa hxl => ?_, fun x hx hxa => ?_⟩
      · rcases List.mem_cons.mp hx with hxi | hxt
        · subst hxi; exact hrec.1 _ hxl
        · exact hrec.2.1 x hxt hxa hxl
      · rcases List.mem_cons.mp hx with hxi | hxt
        · subst hxi; exact absurd hxa (by simpa using hmem)
        · exact hrec.2.2 x hxt hxa
    · have heq : (enqueueLoop rules cid now already remote idx
            (it :: t) ledgerCur).2.2 =
          (enqueueLoop rules cid now already remote (idx + 1) t
            (record_sent ledgerCur it.infohash cid now)).2.2 := by
        simp only [enqueueLoop, if_neg hmem, hadd idx, hwrite idx, if_true]
      have hrec := ihp (idx + 1) (record_sent ledgerCur it.infohash cid now)
      have hmono : ∀ k ∈ sent_map_keys ledgerCur,
          k ∈ sent_map_keys (record_sent ledgerCur it.infohash cid now) := by
        intro k hk
        exact (mem_sent_map_keys_record _ _ _ _ k).mpr (Or.inr hk)
      rw [heq]
      refine ⟨fun k hk => hrec.1 _ (hmono k hk), fun x hx hxa hxl => ?_,
        fun x hx hxa => ?_⟩
      · exact hrec.1 _ (hmono _ hxl)
      · rcases List.mem_cons.mp hx with hxi | hxt
        · subst hxi
          exact hrec.1 _ ((mem_sent_map_keys_record _ _ _ _ _).mpr (Or.inl rfl))
        · exact hrec.2.2 x hxt hxa

/-! ## Invariants of the autonomous submission loop -/

theorem autosendLoop_subs_origin (policy : Policy)
    (clients : List (Nat × ClientRow)) (rules : Rules) (remote : Remote)
    (now : Nat) (sent : List String) (rest : List ScanItem) :
    ∀ (idx : Nat) (ledgerCur : List SentEntry),
      ∀ s ∈ (autosendLoop policy clients rules remote now sent idx rest
          ledgerCur).subs,
        ∃ it ∈ rest, s.magnet = it.magnet ∧ ¬ pyLower it.infohash ∈ sent := by
  induction rest with
  | nil =>
    intro idx ledgerCur s hs
    simp [autosendLoop] at hs
  | cons it t ihp =>
    intro idx ledgerCur s hs
    have step : ∀ l2, s ∈ (autosendLoop policy clients rules remote now sent
        (idx + 1) t l2).subs →
        ∃ it2 ∈ it :: t, s.magnet = it2.magnet ∧
          ¬ pyLower it2.infohash ∈ sent := by
      intro l2 hs2
      obtain ⟨it2, h1, h2⟩ := ihp _ _ s hs2
      exact ⟨it2, List.mem_cons_of_mem _ h1, h2⟩
    have self : s.magnet = it.magnet → ¬ pyLower it.infohash ∈ sent →
        ∃ it2 ∈ it :: t, s.magnet = it2.magnet ∧
          ¬ pyLower it2.infohash ∈ sent := by
      intro h1 h2
      exact ⟨it, List.mem_cons_self _ _, h1, h2⟩
    simp only [autosendLoop] at hs
    by_cases hmem : pyLower it.infohash ∈ sent
    · rw [if_pos hmem] at hs
      exact step _ hs
    · rw [if_neg hmem] at hs
      cases hcf : clientFor policy clients it.trackerLabel with
      | none =>
        rw [hcf] at hs
        exact step _ hs
      | some cr =>
        simp only [hcf] at hs
        cases hauthv : remote.authOk cr.cid with
        | false =>
          rw [if_pos (by simp [hauthv])] at hs
          exact step _ hs
        | true =>
          rw [if_neg (by simp [hauthv])] at hs
          rcases hss : (cr.precheck &&
              match remote.freeSpace cr.cid with
              | some f => decide (pyOrI it.sizeB 0 > f)
              | none => false) with _ | _
          · rw [hss] at hs
            simp only [Bool.false_eq_true, if_false] at hs
            cases haddv : remote.addOk idx with
            | false =>
              simp only [haddv, Bool.false_eq_true, if_false] at hs
              rcases List.mem_cons.mp hs with hsub | hs2
              · exact self (by rw [hsub]) hmem
              · exact step _ hs2
            | true =>
              simp only [haddv, if_true] at hs
              cases hwv : remote.writeOk idx with
              | false =>
                simp only [hwv, Bool.false_eq_true, if_false] at hs
                rcases List.mem_cons.mp hs with hsub | hs2
                · exact self (by rw [hsub]) hmem
                · exact step _ hs2
              | true =>
                simp only [hwv, if_true] at hs
                rcases List.mem_cons.mp hs with hsub | hs2
                · exact self (by rw [hsub]) hmem
                · exact step _ hs2
          · rw [hss] at hs
            simp only [if_true] at hs
            exact step _ hs

theorem autosendLoop_all_handled (policy : Policy)
    (clients : List (Nat × ClientRow)) (rules : Rules) (remote : Remote)
    (now : Nat) (sent : List String) (rest : List ScanItem) :
    ∀ (idx : Nat) (ledgerCur : List SentEntry),
      (∀ it ∈ rest, pyLower it.infohash ∈ sent ∨
        autosendSkipOther policy clients remote it = true) →
      autosendLoop policy clients rules remote now sent idx rest ledgerCur =
        ⟨0, [], ledgerCur⟩ := by
  induction rest with
  | nil => intro idx ledgerCur _; rfl
  | cons it t ihp =>
    intro idx ledgerCur hall
    have hrec := ihp (idx + 1) ledgerCur
      (fun x hx => hall x (List.mem_cons_of_mem _ hx))
    rcases hall it (List.mem_cons_self _ _) with hmem | hskip
    · simp only [autosendLoop, if_pos hmem]
      exact hrec
    · by_cases hmem : pyLower it.infohash ∈ sent
      · simp only [autosendLoop, if_pos hmem]
        exact hrec
      · cases hcf : clientFor policy clients it.trackerLabel with
        | none =>
          simp only [autosendLoop, if_neg hmem, hcf]
          exact hrec
        | some cr =>
          simp only [autosendLoop, if_neg hmem, hcf]
          simp only [autosendSkipOther, hcf] at hskip
          cases hauthv : remote.authOk cr.cid with
          | false =>
            rw [if_pos (by simp [hauthv])]
            exact hrec
          | true =>
            rw [if_neg (by simp [hauthv])]
            rcases hb : (cr.precheck &&
                match remote.freeSpace cr.cid with
                | some f => decide (pyOrI it.sizeB 0 > f)
                | none => false) with _ | _
            · rw [hauthv, hb] at hskip
              simp at hskip
            · rw [if_pos rfl]
              exact hrec

theorem autosendLoop_covers (policy : Policy)
    (clients : List (Nat × ClientRow)) (rules : Rules) (remote : Remote)
    (now : Nat) (sent : List String)
    (hadd : ∀ i, remote.addOk i = true)
    (hwrite : ∀ i, remote.writeOk i = true) (rest : List ScanItem) :
    ∀ (idx : Nat) (ledgerCur : List SentEntry),
      (∀ k ∈ sent_map_keys ledgerCur,
        k ∈ sent_map_keys (autosendLoop policy clients rules remote now sent
          idx rest ledgerCur).ledger) ∧
      (∀ it ∈ rest, pyLower it.infohash ∈ sent_map_keys ledgerCur →
        pyLower it.infohash ∈ sent_map_keys
          (autosendLoop policy clients rules remote now sent
            idx rest ledgerCur).ledger) ∧
      (∀ it ∈ rest, ¬ pyLower it.infohash ∈ sent →
        pyLower it.infohash ∈ sent_map_keys
          (autosendLoop policy clients rules remote now sent
            idx rest ledgerCur).ledger ∨
        autosendSkipOther policy clients remote it = true) := by
  induction rest with
  | nil =>
    intro idx ledgerCur
    refine ⟨fun k hk => ?_, fun x hx => absurd hx (List.not_mem_nil x),
      fun x hx => absurd hx (List.not_mem_nil x)⟩
    simpa [autosendLoop] using hk
  | cons it t ihp =>
    intro idx ledgerCur
    have build : ∀ (l2 : List SentEntry),
        (autosendLoop policy clients rules remote now sent idx (it :: t)
            ledgerCur).ledger =
          (autosendLoop policy clients rules remote now sent (idx + 1) t
            l2).ledger →
        (∀ k ∈ sent_map_keys ledgerCur, k ∈ sent_map_keys l2) →
        (¬ pyLower it.infohash ∈ sent →
          pyLower it.infohash ∈ sent_map_keys l2 ∨
            autosendSkipOther policy clients remote it = true) →
        (∀ k ∈ sent_map_keys ledgerCur,
          k ∈ sent_map_keys (autosendLoop policy clients rules remote now sent
            idx (it :: t) ledgerCur).ledger) ∧
        (∀ x ∈ it :: t, pyLower x.infohash ∈ sent_map_keys ledgerCur →
          pyLower x.infohash ∈ sent_map_keys
            (autosendLoop policy clients rules remote now sent
              idx (it :: t) ledgerCur).ledger) ∧
        (∀ x ∈ it :: t, ¬ pyLower x.infohash ∈ sent →
          pyLower x.infohash ∈ sent_map_keys
            (autosendLoop policy clients rules remote now sent
              idx (it :: t) ledgerCur).ledger ∨
          autosendSkipOther policy clients remote x = true) := by
      intro l2 heq hmono hself
      have hrec := ihp (idx + 1) l2
      refine ⟨fun k hk => ?_, fun x hx hxl => ?_, fun x hx hxs => ?_⟩
      · rw [heq]
        exact hrec.1 _ (hmono k hk)
      · rw [heq]
        exact hrec.1 _ (hmono _ hxl)
      · rcases List.mem_cons.mp hx with hxi | hxt
        · subst hxi
          rcases hself hxs with hin | hsk
          · left
            rw [heq]
            exact hrec.1 _ hin
          · right
            exact hsk
        · rcases hrec.2.2 x hxt hxs with hin | hsk
          · left
            rw [heq]
            exact hin
          · right
            exact hsk
    by_cases hmem : pyLower it.infohash ∈ sent
    · refine build ledgerCur ?_ (fun k hk => hk) (fun hn => absurd hmem hn)
      simp only [autosendLoop, if_pos hmem]
    · cases hcf : clientFor policy clients it.trackerLabel with
      | none =>
        refine build ledgerCur ?_ (fun k hk => hk)
          (fun _ => Or.inr (by simp [autosendSkipOther, hcf]))
        simp only [autosendLoop, if_neg hmem, hcf]
      | some cr =>
        cases hauthv : remote.authOk cr.cid with
        | false =>
          refine build ledgerCur ?_ (fun k hk => hk)
            (fun _ => Or.inr (by simp [autosendSkipOther, hcf, hauthv]))
          simp only [autosendLoop, if_neg hmem, hcf]
          rw [if_pos (by simp [hauthv])]
        | true =>
          rcases hss : (cr.precheck &&
              match remote.freeSpace cr.cid with
              | some f => decide (pyOrI it.sizeB 0 > f)
              | none => false) with _ | _
          · have heq : (autosendLoop policy clients rules remote now sent idx
                (it :: t) ledgerCur).ledger =
                (autosendLoop policy clients rules remote now sent (idx + 1) t
                  (record_sent ledgerCur (pyLower it.infohash)
                    cr.cid now)).ledger := by
              simp only [autosendLoop, if_neg hmem, hcf]
              rw [if_neg (by simp [hauthv]), hss]
              simp only [Bool.false_eq_true, if_false, hadd idx,
                hwrite idx, if_true]
            refine build (record_sent ledgerCur (pyLower it.infohash) cr.cid now)
              heq (fun k hk =>
                (mem_sent_map_keys_record _ _ _ _ k).mpr (Or.inr hk))
              (fun _ => Or.inl ?_)
            exact (mem_sent_map_keys_record _ _ _ _ _).mpr
              (Or.inl (by rw [pyLower_idem]))
          · refine build ledgerCur ?_ (fun k hk => hk)
              (fun _ => Or.inr ?_)
            · simp only [autosendLoop, if_neg hmem, hcf]
              rw [if_neg (by simp [hauthv]), hss]
              simp
            · simp only [autosendSkipOther, hcf, hauthv]
              simp [hss]

/-! ## C1: idempotence with respect to the Ledger -/

/-- C1. Under a remote that accepts submissions and a persistence layer
that accepts writes, for either dispatch route: every attempted
submission originates from a selected item whose infohash was NOT in the
Ledger before the call (so an already-ledgered item's magnet is never
submitted for it and never contributes to `added`), and repeating the
same call right after a first completed run submits nothing, changes
nothing and reports `added = 0`, leaving the total at its first-success
value. -/
theorem c1_ledger_idempotence (sel : List SelItem) (cr : ClientRow)
    (remote : Remote) (rules : Rules) (ledger : List SentEntry)
    (now now2 : Nat) (items : List ScanItem) (policy : Policy)
    (clients : List (Nat × ClientRow)) (a : Nat)
    (hadd : ∀ i, remote.addOk i = true)
    (hwrite : ∀ i, remote.writeOk i = true)
    (hcompl : (enqueue sel (some cr) remote rules ledger now).outcome =
      .completed a) :
    (∀ s ∈ (enqueue sel (some cr) remote rules ledger now).subs,
      ∃ it ∈ sel, s.magnet = it.magnet ∧
        ¬ pyLower it.infohash ∈ sent_map_keys ledger) ∧
    (∀ s ∈ (autosend_process items policy clients rules remote
        ledger now).subs,
      ∃ it ∈ items, s.magnet = it.magnet ∧
        ¬ pyLower it.infohash ∈ sent_map_keys ledger) ∧
    (enqueue sel (some cr) remote rules
        (enqueue sel (some cr) remote rules ledger now).ledger now2 =
      ⟨.completed 0, [],
        (enqueue sel (some cr) remote rules ledger now).ledger⟩) ∧
    (autosend_process items policy clients rules remote
        (autosend_process items policy clients rules remote
          ledger now).ledger now2 =
      ⟨0, [], (autosend_process items policy clients rules remote
          ledger now).ledger⟩) := by
  have hempty : sel.isEmpty = false := by
    cases hemp : sel.isEmpty
    · rfl
    · exfalso
      simp [enqueue, hemp] at hcompl
  have hauthv : remote.authOk cr.cid = true := by
    cases hav : remote.authOk cr.cid
    · exfalso
      simp [enqueue, hempty, hav] at hcompl
    · rfl
  -- the completed first manual run is the loop run
  have hr1 : enqueue sel (some cr) remote rules ledger now =
      ⟨.completed (enqueueLoop rules cr.cid now (sent_map_keys ledger)
          remote 0 sel ledger).1,
       (enqueueLoop rules cr.cid now (sent_map_keys ledger)
          remote 0 sel ledger).2.1,
       (enqueueLoop rules cr.cid now (sent_map_keys ledger)
          remote 0 sel ledger).2.2⟩ := by
    rcases hfb : (if cr.precheck then remote.freeSpace cr.cid else none)
        with _ | f
    · simp [enqueue, hempty, hauthv, hfb]
    · by_cases hgt : totalNeeded sel > f
      · exfalso
        simp [enqueue, hempty, hauthv, hfb, hgt] at hcompl
      · simp [enqueue, hempty, hauthv, hfb, hgt]
  -- after the loop, every selected item is ledgered
  have hcov := enqueueLoop_covers rules cr.cid now (sent_map_keys ledger)
    remote hadd hwrite sel 0 ledger
  have hskipall : ∀ it ∈ sel, pyLower it.infohash ∈ sent_map_keys
      (enqueueLoop rules cr.cid now (sent_map_keys ledger)
        remote 0 sel ledger).2.2 := by
    intro it hit
    by_cases hm : pyLower it.infohash ∈ sent_map_keys ledger
    · exact hcov.2.1 it hit hm hm
    · exact hcov.2.2 it hit hm
  have hrepeat : enqueue sel (some cr) remote rules
      (enqueueLoop rules cr.cid now (sent_map_keys ledger)
        remote 0 sel ledger).2.2 now2 =
      ⟨.completed 0, [],
        (enqueueLoop rules cr.cid now (sent_map_keys ledger)
          remote 0 sel ledger).2.2⟩ := by
    have hskip := enqueueLoop_all_skipped rules cr.cid now2
      (sent_map_keys (enqueueLoop rules cr.cid now (sent_map_keys ledger)
        remote 0 sel ledger).2.2) remote sel 0
      (enqueueLoop rules cr.cid now (sent_map_keys ledger)
        remote 0 sel ledger).2.2 hskipall
    rcases hfb : (if cr.precheck then remote.freeSpace cr.cid else none)
        with _ | f
    · simp [enqueue, hempty, hauthv, hfb, hskip]
    · by_cases hgt : totalNeeded sel > f
      · exfalso
        simp [enqueue, hempty, hauthv, hfb, hgt] at hcompl
      · simp [enqueue, hempty, hauthv, hfb, hgt, hskip]
  -- autosend facts
  have hauto : ∀ s ∈ (autosend_process items policy clients rules remote
      ledger now).subs,
      ∃ it ∈ items, s.magnet = it.magnet ∧
        ¬ pyLower it.infohash ∈ sent_map_keys ledger := by
    cases hie : items.isEmpty
    · intro s hs
      simp only [autosend_process, hie, Bool.false_eq_true, if_false] at hs
      exact autosendLoop_subs_origin policy clients rules remote now
        (sent_map_keys ledger) items 0 ledger s hs
    · intro s hs
      simp [autosend_process, hie] at hs
  have hauto2 : autosend_process items policy clients rules remote
      (autosend_process items policy clients rules remote
        ledger now).ledger now2 =
      ⟨0, [], (autosend_process items policy clients rules remote
        ledger now).ledger⟩ := by
    cases hie : items.isEmpty
    · have ha1 : (autosend_process items policy clients rules remote
          ledger now).ledger =
          (autosendLoop policy clients rules remote now
            (sent_map_keys ledger) 0 items ledger).ledger := by
        simp [autosend_process, hie]
      have hcov2 := autosendLoop_covers policy clients rules remote now
        (sent_map_keys ledger) hadd hwrite items 0 ledger
      have hall : ∀ it ∈ items, pyLower it.infohash ∈ sent_map_keys
          (autosend_process items policy clients rules remote
            ledger now).ledger ∨
          autosendSkipOther policy clients remote it = true := by
        intro it hit
        rw [ha1]
        by_cases hm : pyLower it.infohash ∈ sent_map_keys ledger
        · exact Or.inl (hcov2.2.1 it hit hm)
        · exact hcov2.2.2 it hit hm
      have hdone := autosendLoop_all_handled policy clients rules remote now2
        (sent_map_keys (autosend_process items policy clients rules remote
          ledger now).ledger) items 0
        (autosend_process items policy clients rules remote ledger now).ledger
        hall
      rw [ha1] at hdone
      simp [autosend_process, hie, hdone]
    · have hnil : items = [] := List.isEmpty_iff.mp hie
      subst hnil
      simp [autosend_process]
  refine ⟨?_, hauto, ?_, hauto2⟩
  · rw [hr1]
    intro s hs
    exact enqueueLoop_subs_origin rules cr.cid now (sent_map_keys ledger)
      remote sel 0 ledger s hs
  · rw [hr1]
    exact hrepeat

/-- Witness for C1: one concrete item dispatched successfully once; the
repeated call reports zero added, submits nothing and leaves the Ledger
at its first-success state. -/
theorem c1_ledger_idempotence_witness :
    enqueue [⟨"magnet:?a", "t.example.com", "aa", emptyDescData⟩]
        (some ⟨1, false⟩)
        ⟨fun _ => true, fun _ => some 100, fun _ => true, fun _ => true⟩ []
        (enqueue [⟨"magnet:?a", "t.example.com", "aa", emptyDescData⟩]
          (some ⟨1, false⟩)
          ⟨fun _ => true, fun _ => some 100, fun _ => true, fun _ => true⟩
          [] [] 7).ledger 8 =
      ⟨.completed 0, [],
        (enqueue [⟨"magnet:?a", "t.example.com", "aa", emptyDescData⟩]
          (some ⟨1, false⟩)
          ⟨fun _ => true, fun _ => some 100, fun _ => true, fun _ => true⟩
          [] [] 7).ledger⟩ :=
  (c1_ledger_idempotence
    [⟨"magnet:?a", "t.example.com", "aa", emptyDescData⟩] ⟨1, false⟩
    ⟨fun _ => true, fun _ => some 100, fun _ => true, fun _ => true⟩
    [] [] 7 8
    [⟨"n1", 60, 1, "magnet:?a", "aa", "p1", "t.example.com",
        "t.example.com"⟩]
    ⟨true, some 1, []⟩ [(1, ⟨1, false⟩)] 1
    (fun _ => rfl) (fun _ => rfl) rfl).2.2.1

/-! ## C2 as amended: the added count against the new ledger keys -/

theorem enqueueLoop_added_newkeys (rules : Rules) (cid now : Nat)
    (already : List String) (remote : Remote) (rest : List SelItem) :
    ∀ (idx : Nat) (ledgerCur : List SentEntry),
      (sent_map_keys ledgerCur).Nodup →
      (∀ it ∈ rest, ¬ pyLower it.infohash ∈ already →
        ¬ pyLower it.infohash ∈ sent_map_keys ledgerCur) →
      ((rest.map (fun it => pyLower it.infohash)).Nodup) →
      ∃ nk : List String,
        sent_map_keys (enqueueLoop rules cid now already remote idx rest
          ledgerCur).2.2 = nk ++ sent_map_keys ledgerCur ∧
        (∀ k ∈ nk, ¬ k ∈ sent_map_keys ledgerCur ∧ ¬ k ∈ already) ∧
        (enqueueLoop rules cid now already remote idx rest ledgerCur).1 =
          nk.length := by
  induction rest with
  | nil =>
    intro idx ledgerCur _ _ _
    exact ⟨[], rfl, fun k hk => absurd hk (List.not_mem_nil k), rfl⟩
  | cons it t ihp =>
    intro idx ledgerCur hnodup hfresh hdist
    have hdist2 : ((t.map (fun x => pyLower x.infohash)).Nodup) :=
      (List.nodup_cons.mp hdist).2
    have hheadfresh : ¬ pyLower it.infohash ∈
        t.map (fun x => pyLower x.infohash) :=
      (List.nodup_cons.mp hdist).1
    by_cases hmem : pyLower it.infohash ∈ already
    · have heq1 : (enqueueLoop rules cid now already remote idx (it :: t)
          ledgerCur).1 =
          (enqueueLoop rules cid now already remote (idx + 1) t ledgerCur).1 := by
        simp only [enqueueLoop, if_pos hmem]
      have heq2 : (enqueueLoop rules cid now already remote idx (it :: t)
          ledgerCur).2.2 =
          (enqueueLoop rules cid now already remote (idx + 1) t
            ledgerCur).2.2 := by
        simp only [enqueueLoop, if_pos hmem]
      obtain ⟨nk, h1, h2, h3⟩ := ihp (idx + 1) ledgerCur hnodup
        (fun x hx => hfresh x (List.mem_cons_of_mem _ hx)) hdist2
      exact ⟨nk, by rw [heq2]; exact h1, h2, by rw [heq1]; exact h3⟩
    · have hfreshit : ¬ pyLower it.infohash ∈ sent_map_keys ledgerCur :=
        hfresh it (List.mem_cons_self _ _) hmem
      cases haddv : remote.addOk idx with
      | false =>
        have heq1 : (enqueueLoop rules cid now already remote idx (it :: t)
            ledgerCur).1 =
            (enqueueLoop rules cid now already remote (idx + 1) t
              ledgerCur).1 := by
          simp only [enqueueLoop, if_neg hmem, haddv, Bool.false_eq_true,
            if_false]
        have heq2 : (enqueueLoop rules cid now already remote idx (it :: t)
            ledgerCur).2.2 =
            (enqueueLoop rules cid now already remote (idx + 1) t
              ledgerCur).2.2 := by
          simp only [enqueueLoop, if_neg hmem, haddv, Bool.false_eq_true,
            if_false]
        obtain ⟨nk, h1, h2, h3⟩ := ihp (idx + 1) ledgerCur hnodup
          (fun x hx => hfresh x (List.mem_cons_of_mem _ hx)) hdist2
        exact ⟨nk, by rw [heq2]; exact h1, h2, by rw [heq1]; exact h3⟩
      | true =>
        cases hwv : remote.writeOk idx with
        | false =>
          have heq1 : (enqueueLoop rules cid now already remote idx (it :: t)
              ledgerCur).1 =
              (enqueueLoop rules cid now already remote (idx + 1) t
                ledgerCur).1 := by
            simp only [enqueueLoop, if_neg hmem, haddv, if_true, hwv,
              Bool.false_eq_true, if_false]
          have heq2 : (enqueueLoop rules cid now already remote idx (it :: t)
              ledgerCur).2.2 =
              (enqueueLoop rules cid now already remote (idx + 1) t
                ledgerCur).2.2 := by
            simp only [enqueueLoop, if_neg hmem, haddv, if_true, hwv,
              Bool.false_eq_true, if_false]
          obtain ⟨nk, h1, h2, h3⟩ := ihp (idx + 1) ledgerCur hnodup
            (fun x hx => hfresh x (List.mem_cons_of_mem _ hx)) hdist2
          exact ⟨nk, by rw [heq2]; exact h1, h2, by rw [heq1]; exact h3⟩
        | true =>
          have heq1 : (enqueueLoop rules cid now already remote idx (it :: t)
              ledgerCur).1 =
              (enqueueLoop rules cid now already remote (idx + 1) t
                (record_sent ledgerCur it.infohash cid now)).1 + 1 := by
            simp only [enqueueLoop, if_neg hmem, haddv, hwv, if_true]
          have heq2 : (enqueueLoop rules cid now already remote idx (it :: t)
              ledgerCur).2.2 =
              (enqueueLoop rules cid now already remote (idx + 1) t
                (record_sent ledgerCur it.infohash cid now)).2.2 := by
            simp only [enqueueLoop, if_neg hmem, haddv, hwv, if_true]
          have hkeys : sent_map_keys (record_sent ledgerCur it.infohash
              cid now) = pyLower it.infohash :: sent_map_keys ledgerCur := by
            rw [record_sent_fresh _ _ _ _ hfreshit]
            simp [sent_map_keys, pyLower_idem]
          have hnodup2 : (sent_map_keys (record_sent ledgerCur it.infohash
              cid now)).Nodup := by
            rw [hkeys]
            exact List.nodup_cons.mpr ⟨hfreshit, hnodup⟩
          have hfresh2 : ∀ x ∈ t, ¬ pyLower x.infohash ∈ already →
              ¬ pyLower x.infohash ∈ sent_map_keys (record_sent ledgerCur
                it.infohash cid now) := by
            intro x hx hxa
            rw [hkeys]
            intro hin
            rcases List.mem_cons.mp hin with hh | hh
            · exact hheadfresh (hh ▸ List.mem_map_of_mem _ hx)
            · exact hfresh x (List.mem_cons_of_mem _ hx) hxa hh
          obtain ⟨nk, h1, h2, h3⟩ := ihp (idx + 1)
            (record_sent ledgerCur it.infohash cid now) hnodup2 hfresh2 hdist2
          refine ⟨nk ++ [pyLower it.infohash], ?_, ?_, ?_⟩
          · rw [heq2, h1, hkeys, List.append_assoc, List.singleton_append]
          · intro k hk
            rcases List.mem_append.mp hk with hk | hk
            · have hp := h2 k hk
              rw [hkeys] at hp
              exact ⟨fun hc => hp.1 (List.mem_cons_of_mem _ hc), hp.2⟩
            · rw [List.mem_singleton.mp hk]
              exact ⟨hfreshit, hmem⟩
          · rw [heq1, h3]
            simp


/-- C2 as amended: `added` counts the items whose submission AND ledger
write both succeeded; when the selected items carry pairwise-distinct
infohashes (after lower-casing) this equals the number of distinct
infohash keys newly present in the Ledger as a direct effect of the call
— including under injected ledger-write failures, where the failed item
is neither counted nor present. With duplicated infohashes in one
selection each duplicate is submitted and counted although only one key
appears (the stated claim's failure mode). -/
theorem c2_added_eq_new_keys (sel : List SelItem) (cr : ClientRow)
    (remote : Remote) (rules : Rules) (ledger : List SentEntry) (now : Nat)
    (hnodup : (sent_map_keys ledger).Nodup)
    (hdist : (sel.map (fun it => pyLower it.infohash)).Nodup) :
    addedOf (enqueue sel (some cr) remote rules ledger now) =
      ((sent_map_keys
          (enqueue sel (some cr) remote rules ledger now).ledger).filter
        (fun k => decide (¬ k ∈ sent_map_keys ledger))).length := by
  have hselffilter : ((sent_map_keys ledger).filter
      (fun k => decide (¬ k ∈ sent_map_keys ledger))).length = 0 := by
    rw [filter_not_mem_self _ _ (fun k hk => hk)]
    rfl
  have hproceed :
      enqueue sel (some cr) remote rules ledger now =
        ⟨.completed (enqueueLoop rules cr.cid now (sent_map_keys ledger)
            remote 0 sel ledger).1,
         (enqueueLoop rules cr.cid now (sent_map_keys ledger)
            remote 0 sel ledger).2.1,
         (enqueueLoop rules cr.cid now (sent_map_keys ledger)
            remote 0 sel ledger).2.2⟩ →
      addedOf (enqueue sel (some cr) remote rules ledger now) =
        ((sent_map_keys
            (enqueue sel (some cr) remote rules ledger now).ledger).filter
          (fun k => decide (¬ k ∈ sent_map_keys ledger))).length := by
    intro hrun
    rw [hrun]
    obtain ⟨nk, h1, h2, h3⟩ := enqueueLoop_added_newkeys rules cr.cid now
      (sent_map_keys ledger) remote sel 0 ledger hnodup
      (fun it _ hm => hm) hdist
    show (enqueueLoop rules cr.cid now (sent_map_keys ledger)
        remote 0 sel ledger).1 = _
    rw [h3, h1, List.filter_append]
    rw [List.filter_eq_self.mpr (fun k hk => by
      simpa using (h2 k hk).1)]
    rw [filter_not_mem_self _ _ (fun k hk => hk)]
    simp
  cases hemp : sel.isEmpty with
  | true =>
    have hrun : enqueue sel (some cr) remote rules ledger now =
        ⟨.noSelection, [], ledger⟩ := by
      simp [enqueue, hemp]
    rw [hrun]
    exact hselffilter.symm
  | false =>
    cases hauthv : remote.authOk cr.cid with
    | false =>
      have hrun : enqueue sel (some cr) remote rules ledger now =
          ⟨.clientUnreachable, [], ledger⟩ := by
        simp [enqueue, hemp, hauthv]
      rw [hrun]
      exact hselffilter.symm
    | true =>
      rcases hfb : (if cr.precheck then remote.freeSpace cr.cid else none)
          with _ | f
      · exact hproceed (by simp [enqueue, hemp, hauthv, hfb])
      · by_cases hgt : totalNeeded sel > f
        · have hrun : enqueue sel (some cr) remote rules ledger now =
              ⟨.insufficientSpace (totalNeeded sel) f (unknownCount sel),
               [], ledger⟩ := by
            simp [enqueue, hemp, hauthv, hfb, hgt]
          rw [hrun]
          exact hselffilter.symm
        · exact hproceed (by simp [enqueue, hemp, hauthv, hfb, hgt])

/-- Witness for C2 as amended, with an injected ledger-write failure on
the second item: one item counted, one distinct new ledger key. -/
theorem c2_added_eq_new_keys_witness :
    addedOf (enqueue
        [⟨"magnet:?a", "t.example.com", "aa", emptyDescData⟩,
         ⟨"magnet:?b", "t.example.com", "bb", emptyDescData⟩]
        (some ⟨1, false⟩)
        ⟨fun _ => true, fun _ => some 100, fun _ => true,
          fun i => decide (i = 0)⟩
        [] [⟨"cc", 2, 3⟩] 7) =
      ((sent_map_keys (enqueue
          [⟨"magnet:?a", "t.example.com", "aa", emptyDescData⟩,
           ⟨"magnet:?b", "t.example.com", "bb", emptyDescData⟩]
          (some ⟨1, false⟩)
          ⟨fun _ => true, fun _ => some 100, fun _ => true,
            fun i => decide (i = 0)⟩
          [] [⟨"cc", 2, 3⟩] 7).ledger).filter
        (fun k => decide (¬ k ∈ sent_map_keys
          ([⟨"cc", 2, 3⟩] : List SentEntry)))).length :=
  c2_added_eq_new_keys
    [⟨"magnet:?a", "t.example.com", "aa", emptyDescData⟩,
     ⟨"magnet:?b", "t.example.com", "bb", emptyDescData⟩]
    ⟨1, false⟩
    ⟨fun _ => true, fun _ => some 100, fun _ => true, fun i => decide (i = 0)⟩
    [] [⟨"cc", 2, 3⟩] 7 (by decide) (by decide)

/-! ## C4 as amended: where the two routes do agree -/

theorem loops_agree (rules : Rules) (policy : Policy)
    (clients : List (Nat × ClientRow)) (remote : Remote) (now : Nat)
    (cr : ClientRow) (sent : List String) (dataF : ScanItem → DescData)
    (hpre : cr.precheck = false) (hauthv : remote.authOk cr.cid = true)
    (rest : List ScanItem) :
    ∀ (idx : Nat) (ledgerCur : List SentEntry),
      (∀ it ∈ rest, clientFor policy clients it.trackerLabel = some cr) →
      (∀ it ∈ rest, ¬ catOf (lookupRule rules it.trackerHost) = "") →
      enqueueLoop rules cr.cid now sent remote idx
          (rest.map (fun x => ⟨x.magnet, x.trackerHost, x.infohash,
            dataF x⟩)) ledgerCur =
        ((autosendLoop policy clients rules remote now sent idx rest
            ledgerCur).added,
         (autosendLoop policy clients rules remote now sent idx rest
            ledgerCur).subs,
         (autosendLoop policy clients rules remote now sent idx rest
            ledgerCur).ledger) := by
  induction rest with
  | nil =>
    intro idx ledgerCur _ _
    rfl
  | cons it t ihp =>
    intro idx ledgerCur hcli hcat
    have hrec := fun l2 => ihp (idx + 1) l2
      (fun x hx => hcli x (List.mem_cons_of_mem _ hx))
      (fun x hx => hcat x (List.mem_cons_of_mem _ hx))
    have hcf := hcli it (List.mem_cons_self _ _)
    have hct := hcat it (List.mem_cons_self _ _)
    have hcatS : pyOrS (catOf (lookupRule rules it.trackerHost))
        (headSplit '.' it.trackerHost) =
        catOf (lookupRule rules it.trackerHost) := by
      simp [pyOrS, hct]
    have hcatA : pyOrS (catOf (lookupRule rules it.trackerHost))
        (pyOrS it.trackerLabel (headSplit '.' it.trackerHost)) =
        catOf (lookupRule rules it.trackerHost) := by
      simp [pyOrS, hct]
    simp only [List.map_cons]
    by_cases hmem : pyLower it.infohash ∈ sent
    · have hL : enqueueLoop rules cr.cid now sent remote idx
          ((⟨it.magnet, it.trackerHost, it.infohash, dataF it⟩ : SelItem) ::
            t.map (fun x => ⟨x.magnet, x.trackerHost, x.infohash, dataF x⟩))
          ledgerCur =
          enqueueLoop rules cr.cid now sent remote (idx + 1)
            (t.map (fun x => ⟨x.magnet, x.trackerHost, x.infohash, dataF x⟩))
            ledgerCur := by
        simp only [enqueueLoop]
        rw [if_pos hmem]
      have hA : autosendLoop policy clients rules remote now sent idx
          (it :: t) ledgerCur =
          autosendLoop policy clients rules remote now sent (idx + 1) t
            ledgerCur := by
        simp only [autosendLoop]
        rw [if_pos hmem]
      rw [hL, hA]
      exact hrec ledgerCur
    · have hA : autosendLoop policy clients rules remote now sent idx
          (it :: t) ledgerCur =
          (if remote.addOk idx then
            (if remote.writeOk idx then
              { added := (autosendLoop policy clients rules remote now sent
                  (idx + 1) t (record_sent ledgerCur (pyLower it.infohash)
                    cr.cid now)).added + 1,
                subs := ⟨it.magnet,
                    pyStrip (catOf (lookupRule rules it.trackerHost)),
                    resolveRatioLimit (lookupRule rules it.trackerHost),
                    resolveSeedMinutes (lookupRule rules it.trackerHost),
                    pyUpper it.infohash⟩ ::
                  (autosendLoop policy clients rules remote now sent
                    (idx + 1) t (record_sent ledgerCur (pyLower it.infohash)
                      cr.cid now)).subs,
                ledger := (autosendLoop policy clients rules remote now sent
                  (idx + 1) t (record_sent ledgerCur (pyLower it.infohash)
                    cr.cid now)).ledger }
            else
              { added := (autosendLoop policy clients rules remote now sent
                  (idx + 1) t ledgerCur).added,
                subs := ⟨it.magnet,
                    pyStrip (catOf (lookupRule rules it.trackerHost)),
                    resolveRatioLimit (lookupRule rules it.trackerHost),
                    resolveSeedMinutes (lookupRule rules it.trackerHost),
                    pyUpper it.infohash⟩ ::
                  (autosendLoop policy clients rules remote now sent
                    (idx + 1) t ledgerCur).subs,
                ledger := (autosendLoop policy clients rules remote now sent
                  (idx + 1) t ledgerCur).ledger })
          else
            { added := (autosendLoop policy clients rules remote now sent
                (idx + 1) t ledgerCur).added,
              subs := ⟨it.magnet,
                  pyStrip (catOf (lookupRule rules it.trackerHost)),
                  resolveRatioLimit (lookupRule rules it.trackerHost),
                  resolveSeedMinutes (lookupRule rules it.trackerHost),
                  pyUpper it.infohash⟩ ::
                (autosendLoop policy clients rules remote now sent
                  (idx + 1) t ledgerCur).subs,
              ledger := (autosendLoop policy clients rules remote now sent
                (idx + 1) t ledgerCur).ledger }) := by
        simp only [autosendLoop, hcf]
        rw [if_neg hmem, if_neg (by simp [hauthv])]
        rw [if_neg (by simp [hpre])]
        rw [hcatA]
      have hL : enqueueLoop rules cr.cid now sent remote idx
          ((⟨it.magnet, it.trackerHost, it.infohash, dataF it⟩ : SelItem) ::
            t.map (fun x => ⟨x.magnet, x.trackerHost, x.infohash, dataF x⟩))
          ledgerCur =
          (if remote.addOk idx then
            (if remote.writeOk idx then
              ((enqueueLoop rules cr.cid now sent remote (idx + 1)
                  (t.map (fun x => ⟨x.magnet, x.trackerHost, x.infohash,
                    dataF x⟩))
                  (record_sent ledgerCur it.infohash cr.cid now)).1 + 1,
               ⟨it.magnet,
                  pyStrip (catOf (lookupRule rules it.trackerHost)),
                  resolveRatioLimit (lookupRule rules it.trackerHost),
                  resolveSeedMinutes (lookupRule rules it.trackerHost),
                  pyUpper it.infohash⟩ ::
                (enqueueLoop rules cr.cid now sent remote (idx + 1)
                  (t.map (fun x => ⟨x.magnet, x.trackerHost, x.infohash,
                    dataF x⟩))
                  (record_sent ledgerCur it.infohash cr.cid now)).2.1,
               (enqueueLoop rules cr.cid now sent remote (idx + 1)
                  (t.map (fun x => ⟨x.magnet, x.trackerHost, x.infohash,
                    dataF x⟩))
                  (record_sent ledgerCur it.infohash cr.cid now)).2.2)
            else
              ((enqueueLoop rules cr.cid now sent remote (idx + 1)
                  (t.map (fun x => ⟨x.magnet, x.trackerHost, x.infohash,
                    dataF x⟩)) ledgerCur).1,
               ⟨it.magnet,
                  pyStrip (catOf (lookupRule rules it.trackerHost)),
                  resolveRatioLimit (lookupRule rules it.trackerHost),
                  resolveSeedMinutes (lookupRule rules it.trackerHost),
                  pyUpper it.infohash⟩ ::
                (enqueueLoop rules cr.cid now sent remote (idx + 1)
                  (t.map (fun x => ⟨x.magnet, x.trackerHost, x.infohash,
                    dataF x⟩)) ledgerCur).2.1,
               (enqueueLoop rules cr.cid now sent remote (idx + 1)
                  (t.map (fun x => ⟨x.magnet, x.trackerHost, x.infohash,
                    dataF x⟩)) ledgerCur).2.2))
          else
            ((enqueueLoop rules cr.cid now sent remote (idx + 1)
                (t.map (fun x => ⟨x.magnet, x.trackerHost, x.infohash,
                  dataF x⟩)) ledgerCur).1,
             ⟨it.magnet,
                pyStrip (catOf (lookupRule rules it.trackerHost)),
                resolveRatioLimit (lookupRule rules it.trackerHost),
                resolveSeedMinutes (lookupRule rules it.trackerHost),
                pyUpper it.infohash⟩ ::
              (enqueueLoop rules cr.cid now sent remote (idx + 1)
                (t.map (fun x => ⟨x.magnet, x.trackerHost, x.infohash,
                  dataF x⟩)) ledgerCur).2.1,
             (enqueueLoop rules cr.cid now sent remote (idx + 1)
                (t.map (fun x => ⟨x.magnet, x.trackerHost, x.infohash,
                  dataF x⟩)) ledgerCur).2.2)) := by
        simp only [enqueueLoop]
        rw [if_neg hmem]
        rw [hcatS]
      rw [hL, hA]
      cases haddv : remote.addOk idx with
      | false =>
        simp only [Bool.false_eq_true, if_false]
        rw [hrec ledgerCur]
      | true =>
        simp only [if_true]
        cases hwv : remote.writeOk idx with
        | false =>
          simp only [Bool.false_eq_true, if_false]
          rw [hrec ledgerCur]
        | true =>
          simp only [if_true]
          rw [record_sent_pyLower]
          rw [hrec (record_sent ledgerCur it.infohash cr.cid now)]

/-- C4 as amended: the two dispatch routes share the submission
mechanics but are equivalent only under extra conditions — here: the
autosend policy resolves every item to the one target client, that
client has the precheck disabled, authentication succeeds, and every
item's rule host has a non-empty rule category (so the differing
category fallbacks are never consulted). Under those conditions the
manual route on the same items performs exactly the autosend route's
submissions, added count and Ledger updates. Outside them the routes
diverge (see the counterexample): the aggregate-abort space precheck
versus the per-item skip, and the category fallback chains. -/
theorem c4_paths_agree_under_conditions (items : List ScanItem)
    (policy : Policy) (clients : List (Nat × ClientRow)) (cr : ClientRow)
    (remote : Remote) (rules : Rules) (ledger : List SentEntry) (now : Nat)
    (dataF : ScanItem → DescData)
    (hne : items ≠ [])
    (hcli : ∀ it ∈ items, clientFor policy clients it.trackerLabel = some cr)
    (hcat : ∀ it ∈ items, ¬ catOf (lookupRule rules it.trackerHost) = "")
    (hpre : cr.precheck = false)
    (hauthv : remote.authOk cr.cid = true) :
    enqueue (items.map (fun x => ⟨x.magnet, x.trackerHost, x.infohash,
        dataF x⟩)) (some cr) remote rules ledger now =
      ⟨.completed (autosend_process items policy clients rules remote
          ledger now).added,
       (autosend_process items policy clients rules remote ledger now).subs,
       (autosend_process items policy clients rules remote ledger now).ledger⟩ := by
  have hie : items.isEmpty = false := by
    cases items
    · exact absurd rfl hne
    · rfl
  have hempty : (items.map (fun x => (⟨x.magnet, x.trackerHost, x.infohash,
      dataF x⟩ : SelItem))).isEmpty = false := by
    cases items
    · exact absurd rfl hne
    · rfl
  have hloop := loops_agree rules policy clients remote now cr
    (sent_map_keys ledger) dataF hpre hauthv items 0 ledger hcli hcat
  have hauto : autosend_process items policy clients rules remote ledger now =
      autosendLoop policy clients rules remote now (sent_map_keys ledger)
        0 items ledger := by
    simp [autosend_process, hie]
  rw [hauto]
  simp only [enqueue, hempty, Bool.false_eq_true, if_false]
  rw [if_neg (by simp [hauthv])]
  simp only [hpre, Bool.false_eq_true, if_false]
  rw [hloop]

/-- Witness for C4 as amended at a concrete input: one item with a ruled
category, a precheck-free client resolved by the global policy. -/
theorem c4_paths_agree_witness :
    enqueue [⟨"magnet:?a", "t.example.com", "aa", emptyDescData⟩]
        (some ⟨1, false⟩)
        ⟨fun _ => true, fun _ => some 100, fun _ => true, fun _ => true⟩
        [("t.example.com", ⟨"cat", none, none⟩)] [] 7 =
      ⟨.completed (autosend_process
          [⟨"n1", 60, 1, "magnet:?a", "aa", "p1", "t.example.com",
              "t.example.com"⟩]
          ⟨true, some 1, []⟩ [(1, ⟨1, false⟩)]
          [("t.example.com", ⟨"cat", none, none⟩)]
          ⟨fun _ => true, fun _ => some 100, fun _ => true, fun _ => true⟩
          [] 7).added,
       (autosend_process
          [⟨"n1", 60, 1, "magnet:?a", "aa", "p1", "t.example.com",
              "t.example.com"⟩]
          ⟨true, some 1, []⟩ [(1, ⟨1, false⟩)]
          [("t.example.com", ⟨"cat", none, none⟩)]
          ⟨fun _ => true, fun _ => some 100, fun _ => true, fun _ => true⟩
          [] 7).subs,
       (autosend_process
          [⟨"n1", 60, 1, "magnet:?a", "aa", "p1", "t.example.com",
              "t.example.com"⟩]
          ⟨true, some 1, []⟩ [(1, ⟨1, false⟩)]
          [("t.example.com", ⟨"cat", none, none⟩)]
          ⟨fun _ => true, fun _ => some 100, fun _ => true, fun _ => true⟩
          [] 7).ledger⟩ :=
  c4_paths_agree_under_conditions
    [⟨"n1", 60, 1, "magnet:?a", "aa", "p1", "t.example.com",
        "t.example.com"⟩]
    ⟨true, some 1, []⟩ [(1, ⟨1, false⟩)] ⟨1, false⟩
    ⟨fun _ => true, fun _ => some 100, fun _ => true, fun _ => true⟩
    [("t.example.com", ⟨"cat", none, none⟩)] [] 7
    (fun _ => emptyDescData)
    (by decide)
    (fun it hit => by
      rw [List.mem_singleton.mp hit]
      rfl)
    (fun it hit => by
      rw [List.mem_singleton.mp hit]
      decide)
    rfl rfl

/-! ## C10: lower-case normalization of the Ledger -/

theorem applyLedgerOp_preserves_lower (l : List SentEntry) (op : LedgerOp)
    (h : ∀ e ∈ l, pyLower e.infohash = e.infohash) :
    ∀ e ∈ applyLedgerOp l op, pyLower e.infohash = e.infohash := by
  cases op with
  | store ih cid ts =>
    intro e he
    simp only [applyLedgerOp, record_sent, List.mem_cons] at he
    rcases he with he | he
    · rw [he]
      exact pyLower_idem ih
    · exact h e (List.mem_filter.mp he).1
  | wipe =>
    intro e he
    simp [applyLedgerOp, delete_sent_all] at he
  | removeByHashes hs =>
    intro e he
    simp only [applyLedgerOp, delete_sent_by_infohashes] at he
    by_cases hh : hs.isEmpty
    · rw [if_pos hh] at he
      exact h e he
    · rw [if_neg hh] at he
      exact h e (List.mem_filter.mp he).1

theorem applyLedgerOps_preserves_lower (ops : List LedgerOp) :
    ∀ (l : List SentEntry), (∀ e ∈ l, pyLower e.infohash = e.infohash) →
      ∀ e ∈ applyLedgerOps ops l, pyLower e.infohash = e.infohash := by
  induction ops with
  | nil =>
    intro l h e he
    simp only [applyLedgerOps, List.foldl_nil] at he
    exact h e he
  | cons op rest ihp =>
    intro l h e he
    simp only [applyLedgerOps, List.foldl_cons] at he
    exact ihp (applyLedgerOp l op) (applyLedgerOp_preserves_lower l op h) e he

/-- C10. Every ledger operation normalizes infohashes to lower case:
any sequence of writes starting from the empty table leaves only
fixed-under-lower-casing keys; `sent_map` lower-cases keys on read;
deleting by a hash set equals deleting by its lower-cased image; and an
idempotency check sees a just-recorded hash under any letter case. -/
theorem c10_lowercase_normalization :
    (∀ ops : List LedgerOp, ∀ e ∈ applyLedgerOps ops [],
      pyLower e.infohash = e.infohash) ∧
    (∀ (l : List SentEntry) (k : String), k ∈ sent_map_keys l →
      pyLower k = k) ∧
    (∀ (hashes : List String) (l : List SentEntry),
      delete_sent_by_infohashes hashes l =
        delete_sent_by_infohashes (hashes.map pyLower) l) ∧
    (∀ (l : List SentEntry) (ih1 ih2 : String) (cid ts : Nat),
      pyLower ih1 = pyLower ih2 →
      pyLower ih1 ∈ sent_map_keys (record_sent l ih2 cid ts)) := by
  refine ⟨?_, fun l k => sent_map_keys_lowered l k, ?_, ?_⟩
  · intro ops e he
    exact applyLedgerOps_preserves_lower ops []
      (fun x hx => absurd hx (List.not_mem_nil x)) e he
  · intro hashes l
    have hmm : (hashes.map pyLower).map pyLower = hashes.map pyLower := by
      rw [List.map_map]
      exact List.map_congr_left (fun x _ => pyLower_idem x)
    have hie : (hashes.map pyLower).isEmpty = hashes.isEmpty := by
      cases hashes <;> rfl
    simp only [delete_sent_by_infohashes, hmm, hie]
  · intro l ih1 ih2 cid ts h
    rw [h]
    exact (mem_sent_map_keys_record l ih2 cid ts _).mpr (Or.inl rfl)

/-- Witness for C10: recording a mixed-case hash makes any other case
variant of it visible to the ledgered-check. -/
theorem c10_lowercase_normalization_witness :
    pyLower "AA" ∈ sent_map_keys (record_sent [] "aA" 1 7) :=
  c10_lowercase_normalization.2.2.2 [] "AA" "aA" 1 7 (by decide)

end DecypharrSeed
